import Mathlib

/-!
Verification of the paperbox Requests Config Manager (Go sources under
`internal/config/requests`, `internal/configutil`, and the historical
iterations of the same package).  Go maps are embedded as association
lists (`List (String × Item)`); a `nil` map is `none` and a non-nil map
is `some list`, because the code distinguishes the two (struct-tag
`required`, the nil-map branch of `PatchValues`).  Go's `ItemType` is a
string type, so `Item.type` is a `String` here and the unknown-type case
stays representable.  Machine integers (`version`) are `Int`; no
arithmetic in the sources can overflow ranges that matter.
-/

/-! ## Core data model — internal/config/requests/requests.go -/

def ItemTypeRequest : String := "request"

def ItemTypeFolder : String := "folder"

/-- Item from requests.go: `Type`, `Name`, `Method`, `Path`, `Children`.
A nil and an empty `Children` slice behave identically in every use in
the sources, so both are the empty list. -/
structure Item where
  type : String
  name : String
  method : String
  path : String
  children : List String
deriving DecidableEq, Repr

/-- RequestsConfig from requests.go: `Version int`, `Values map[string]Item`.
`values = none` is Go's nil map. -/
structure RequestsConfig where
  version : Int
  values : Option (List (String × Item))
deriving DecidableEq, Repr

/-- Go map read `m[k]`: first binding of the key, if any. -/
def lookupId : List (String × Item) → String → Option Item
  | [], _ => none
  | (k, v) :: rest, key => if k = key then some v else lookupId rest key

/-- Go map write `m[k] = v`: replace the binding in place, else append. -/
def upsertId : List (String × Item) → String → Item → List (String × Item)
  | [], key, v => [(key, v)]
  | (k, w) :: rest, key, v =>
    if k = key then (key, v) :: rest else (k, w) :: upsertId rest key v

/-- Iterating a Go map: the bindings of a nil map are the empty list. -/
def RequestsConfig.entries (cfg : RequestsConfig) : List (String × Item) :=
  cfg.values.getD []

def CurrentVersion : Int := 1

/-- NewRequestsConfig: version `CurrentVersion`, fresh (non-nil) empty map. -/
def NewRequestsConfig : RequestsConfig :=
  { version := CurrentVersion, values := some [] }

/-! ## Validation errors -/

/-- Errors of `validateItemTypeSpecificRules` (both variants). -/
inductive RuleErr where
  | noMethod
  | noPath
  | hasChildren
  | folderMethod
  | folderPath
deriving DecidableEq, Repr

/-- The distinct failures `Validate` can report, one constructor per
`fmt.Errorf` site (the struct-tag failures of `validator.Struct` are a
single kind, `structErr`). -/
inductive VErr where
  | structErr
  | item (id : String) (e : RuleErr)
  | missingRef (id : String)
  | selfRef (id : String)
  | rootNotFolder (id : String)
  | depthCycle (id : String)
  | depthNotFound (id : String)
  | maxDepth (id : String)
  | maxDepthNested (id : String)
deriving DecidableEq, Repr

/-- validateHTTPMethod: empty passes (omitempty), otherwise the upper-cased
method must be one of the nine known methods. -/
def validMethods : List String :=
  ["GET", "POST", "PUT", "PATCH", "DELETE", "HEAD", "OPTIONS", "CONNECT", "TRACE"]

def validateHTTPMethod (m : String) : Bool :=
  m == "" || validMethods.contains m.toUpper

/-- The struct-tag checks on one `Item`:
`Type required,oneof=request folder`; `Name required,min=1`;
`Method omitempty,http_method`; `Path omitempty,min=1` (which can never
fail: empty is skipped, non-empty has length ≥ 1);
`Children omitempty,dive,required` (each listed id non-empty). -/
def structOkItem (it : Item) : Bool :=
  (it.type == ItemTypeRequest || it.type == ItemTypeFolder) &&
  it.name != "" &&
  validateHTTPMethod it.method &&
  it.children.all (fun c => c != "")

/-- `validate.Struct(config)`: `Version required,min=1` (fails exactly when
version < 1), `Values required,dive,keys,required,endkeys` (nil map fails;
every key non-empty; every Item passes its tags). -/
def structValidate (config : RequestsConfig) : Except VErr Unit :=
  match config.values with
  | none => .error .structErr
  | some vs =>
    if decide (1 ≤ config.version) &&
        vs.all (fun kv => kv.1 != "" && structOkItem kv.2) then .ok ()
    else .error .structErr

/-- The `for id, item := range config.Values` loop of `Validate`, wrapping a
rule failure as `item %s: %w`. -/
def itemsPass (rules : Item → Except RuleErr Unit) :
    List (String × Item) → Except VErr Unit
  | [] => .ok ()
  | (id, it) :: rest =>
    match rules it with
    | .error e => .error (.item id e)
    | .ok _ => itemsPass rules rest

/-- All ids referenced by some item's `Children` (the `referencedIDs` set,
kept as a list with duplicates, which changes no membership fact). -/
def allReferenced (l : List (String × Item)) : List String :=
  (l.map fun kv => kv.2.children).flatten

/-- The self-reference scan: first item whose `Children` contain its own id. -/
def checkSelfRefs : List (String × Item) → Except VErr Unit
  | [] => .ok ()
  | (id, it) :: rest =>
    if it.children.contains id then .error (.selfRef id) else checkSelfRefs rest

/-- The missing-reference scan over the collected referenced ids. -/
def checkRefsExist (allItems : List (String × Item)) :
    List String → Except VErr Unit
  | [] => .ok ()
  | c :: rest =>
    match lookupId allItems c with
    | none => .error (.missingRef c)
    | some _ => checkRefsExist allItems rest

namespace V1

/-- validateItemTypeSpecificRules of internal/config/requests/requests.go:
requests need a method, a path, and no children; folders carry neither
method nor path.  An unknown type string falls through the switch. -/
def validateItemTypeSpecificRules (item : Item) : Except RuleErr Unit :=
  if item.type = ItemTypeRequest then
    if item.method = "" then .error .noMethod
    else if item.path = "" then .error .noPath
    else if 0 < item.children.length then .error .hasChildren
    else .ok ()
  else if item.type = ItemTypeFolder then
    if item.method ≠ "" then .error .folderMethod
    else if item.path ≠ "" then .error .folderPath
    else .ok ()
  else .ok ()

/-- validateChildrenReferences of requests.go: collect referenced ids,
fail on the first missing referent, then on the first self-reference. -/
def validateChildrenReferences (allItems : List (String × Item)) :
    Except VErr Unit :=
  match checkRefsExist allItems (allReferenced allItems) with
  | .error e => .error e
  | .ok _ => checkSelfRefs allItems

/-- Validate of internal/config/requests/requests.go (the iteration that
ships with manager.go and requests_test.go): struct tags, then the
per-item type rules, then the reference pass.  The nil-pointer guard of
the Go function cannot arise here (the managers always pass a value). -/
def Validate (config : RequestsConfig) : Except VErr Unit :=
  match structValidate config with
  | .error e => .error e
  | .ok _ =>
    match itemsPass validateItemTypeSpecificRules config.entries with
    | .error e => .error e
    | .ok _ => validateChildrenReferences config.entries

end V1

/-! ## Manager state machine — internal/config/requests/manager.go
(the configutil-composition iteration, whose line numbers the claims
cite).  The in-memory state is the `config` pointer: `none` before a
successful `Load`. -/

inductive MgrErr where
  | notLoaded
  | parentNotFound
  | notFound
  | validation (e : VErr)
deriving DecidableEq, Repr

def ManagerState := Option RequestsConfig

/-- Manager.Get: a fresh empty config when unloaded; otherwise a copy of the
struct with the values map copied entry by entry (so the copy of a nil map
is an empty non-nil map). -/
def Get (s : ManagerState) : RequestsConfig :=
  match s with
  | none => NewRequestsConfig
  | some cfg => { version := cfg.version, values := some cfg.entries }

/-- Go map-assignment merge `for k, v := range values { m[k] = v }`. -/
def upsertAll (vs : List (String × Item)) (patch : List (String × Item)) :
    List (String × Item) :=
  patch.foldl (fun acc kv => upsertId acc kv.1 kv.2) vs

/-- Manager.PatchValues.  `mergedConfig := *m.config` copies the struct but
shares the underlying `Values` map, so when the committed map is non-nil
the merge loop writes the patch entries into the committed map itself;
a validation failure then returns an error while the committed state
already holds the merged entries.  Only when the committed map is nil does
the merge build a fresh map and leave the committed state untouched on
failure.  The result is the returned error (or unit) and the state the
committed pointer and map contents amount to after the call. -/
def PatchValues (s : ManagerState) (values : List (String × Item)) :
    Except MgrErr Unit × ManagerState :=
  match s with
  | none => (.error .notLoaded, none)
  | some cfg =>
    match cfg.values with
    | none =>
      let merged : RequestsConfig :=
        { version := cfg.version, values := some (upsertAll [] values) }
      match V1.Validate merged with
      | .error e => (.error (.validation e), some cfg)
      | .ok _ => (.ok (), some merged)
    | some vs =>
      let mergedVals := upsertAll vs values
      let merged : RequestsConfig :=
        { version := cfg.version, values := some mergedVals }
      match V1.Validate merged with
      | .error e =>
        (.error (.validation e), some { version := cfg.version, values := some mergedVals })
      | .ok _ => (.ok (), some merged)

/-- Manager.AddRequest.  `newId` stands for the generated UUID.  The parent
must exist and be a folder; then the new request item is written into the
committed map and the parent is rebuilt from `{Type, Name, Children}`
(dropping any method/path the stored parent had) with the id appended. -/
def AddRequest (s : ManagerState) (newId parentId name method path : String) :
    Except MgrErr String × ManagerState :=
  match s with
  | none => (.error .notLoaded, none)
  | some cfg =>
    let newItem : Item :=
      { type := ItemTypeRequest, name := name, method := method, path := path,
        children := [] }
    match lookupId cfg.entries parentId with
    | none => (.error .parentNotFound, some cfg)
    | some parent =>
      if parent.type = ItemTypeFolder then
        let vs1 := upsertId cfg.entries newId newItem
        let vs2 := upsertId vs1 parentId
          { type := parent.type, name := parent.name, method := "", path := "",
            children := parent.children ++ [newId] }
        (.ok newId, some { version := cfg.version, values := some vs2 })
      else (.error .parentNotFound, some cfg)

/-- Manager.AddFolder: same shape as AddRequest, the new item an empty
folder. -/
def AddFolder (s : ManagerState) (newId parentId name : String) :
    Except MgrErr String × ManagerState :=
  match s with
  | none => (.error .notLoaded, none)
  | some cfg =>
    let newItem : Item :=
      { type := ItemTypeFolder, name := name, method := "", path := "",
        children := [] }
    match lookupId cfg.entries parentId with
    | none => (.error .parentNotFound, some cfg)
    | some parent =>
      if parent.type = ItemTypeFolder then
        let vs1 := upsertId cfg.entries newId newItem
        let vs2 := upsertId vs1 parentId
          { type := parent.type, name := parent.name, method := "", path := "",
            children := parent.children ++ [newId] }
        (.ok newId, some { version := cfg.version, values := some vs2 })
      else (.error .parentNotFound, some cfg)

namespace P9

/-- validateItemTypeSpecificRules of the part_009 iteration: like the
requests.go variant but with no empty-path check on requests. -/
def validateItemTypeSpecificRules (item : Item) : Except RuleErr Unit :=
  if item.type = ItemTypeRequest then
    if item.method = "" then .error .noMethod
    else if 0 < item.children.length then .error .hasChildren
    else .ok ()
  else if item.type = ItemTypeFolder then
    if item.method ≠ "" then .error .folderMethod
    else if item.path ≠ "" then .error .folderPath
    else .ok ()
  else .ok ()

/-- The root-level scan of validateReferencesAndRootLevel: the first
unreferenced item that is not a folder fails. -/
def checkRoots (referenced : List String) :
    List (String × Item) → Except VErr Unit
  | [] => .ok ()
  | (id, it) :: rest =>
    if !referenced.contains id && it.type != ItemTypeFolder then
      .error (.rootNotFolder id)
    else checkRoots referenced rest

/-- validateReferencesAndRootLevel of part_009: pass 1 checks self-references
while collecting referenced ids, pass 2 requires every unreferenced (root)
item to be a folder, pass 3 requires every referenced id to exist. -/
def validateReferencesAndRootLevel (allItems : List (String × Item)) :
    Except VErr Unit :=
  match checkSelfRefs allItems with
  | .error e => .error e
  | .ok _ =>
    match checkRoots (allReferenced allItems) allItems with
    | .error e => .error e
    | .ok _ => checkRefsExist allItems (allReferenced allItems)

def MaxFolderDepth : Nat := 3

/-- Keys of `allItems` not yet in `visited`: the quantity the recursive
depth walk strictly shrinks when it pushes a fresh folder onto the path. -/
def unvis (allItems : List (String × Item)) (visited : List String) : Nat :=
  ((allItems.map Prod.fst).filter fun k => !visited.contains k).length

theorem mem_keys_of_lookupId {l : List (String × Item)} {k : String} {it : Item}
    (h : lookupId l k = some it) : k ∈ l.map Prod.fst := by
  induction l with
  | nil => simp [lookupId] at h
  | cons hd tl ih =>
    by_cases hk : hd.1 = k
    · simp [hk]
    · refine List.mem_cons_of_mem _ (ih ?_)
      obtain ⟨a, b⟩ := hd
      simpa [lookupId, hk] using h

theorem length_filter_le_of_imp {α : Type} {q p : α → Bool} (l : List α)
    (h : ∀ x, q x = true → p x = true) :
    (l.filter q).length ≤ (l.filter p).length := by
  induction l with
  | nil => simp
  | cons hd tl ih =>
    cases hq : q hd with
    | true => simp [List.filter_cons, hq, h hd hq, Nat.succ_le_succ ih]
    | false =>
      cases hp : p hd with
      | true =>
        simp only [List.filter_cons, hq, hp, if_true, if_false,
          Bool.false_eq_true, List.length_cons]
        exact Nat.le_succ_of_le ih
      | false =>
        simpa [List.filter_cons, hq, hp] using ih

theorem length_filter_lt_of_imp {α : Type} {q p : α → Bool}
    (h : ∀ x, q x = true → p x = true) :
    ∀ (l : List α) (k : α), k ∈ l → q k = false → p k = true →
      (l.filter q).length < (l.filter p).length := by
  intro l
  induction l with
  | nil => intro k hk _ _; simp at hk
  | cons hd tl ih =>
    intro k hk hqk hpk
    rcases List.mem_cons.mp hk with rfl | hmem
    · simp only [List.filter_cons, hqk, hpk, if_true, if_false,
        Bool.false_eq_true, List.length_cons]
      exact Nat.lt_succ_of_le (length_filter_le_of_imp tl h)
    · cases hq : q hd with
      | true =>
        simp only [List.filter_cons, hq, h hd hq, if_true, List.length_cons]
        exact Nat.succ_lt_succ (ih k hmem hqk hpk)
      | false =>
        cases hp : p hd with
        | true =>
          simp only [List.filter_cons, hq, hp, if_true, if_false,
            Bool.false_eq_true, List.length_cons]
          exact Nat.lt_succ_of_lt (ih k hmem hqk hpk)
        | false =>
          simpa [List.filter_cons, hq, hp] using ih k hmem hqk hpk

theorem unvis_cons_lt {allItems : List (String × Item)} {visited : List String}
    {k : String} (hk : k ∈ allItems.map Prod.fst)
    (hnv : visited.contains k = false) :
    unvis allItems (k :: visited) < unvis allItems visited := by
  unfold unvis
  refine length_filter_lt_of_imp ?_ _ k hk ?_ ?_
  · intro x hx
    simp only [Bool.not_eq_true', List.contains_cons, Bool.or_eq_false_iff] at hx
    simpa using hx.2
  · simp [List.contains_cons]
  · simpa using hnv

mutual

/-- validateFolderDepth of part_009: abort on a revisited id, fail on a
missing id, and for a folder at or past `MaxFolderDepth` fail; otherwise
walk the children with the id pushed onto the visiting path (Go inserts
into `visited` and deletes on return, so sibling walks see the same set). -/
def validateFolderDepth (allItems : List (String × Item)) (itemID : String)
    (currentDepth : Nat) (visited : List String) : Except VErr Unit :=
  if hvis : visited.contains itemID then .error (.depthCycle itemID)
  else
    match hl : lookupId allItems itemID with
    | none => .error (.depthNotFound itemID)
    | some item =>
      if item.type = ItemTypeFolder then
        if MaxFolderDepth ≤ currentDepth then .error (.maxDepth itemID)
        else validateChildrenDepth allItems itemID item.children currentDepth
          (itemID :: visited)
      else .ok ()
termination_by (unvis allItems visited, 0)
decreasing_by
  exact Prod.Lex.left _ _
    (unvis_cons_lt (mem_keys_of_lookupId hl) (Bool.eq_false_iff.mpr hvis))

/-- The loop over a folder's children inside validateFolderDepth: a missing
child is skipped (already reported by the reference pass); a folder child
that would land at `MaxFolderDepth` fails before recursing; otherwise the
child is walked at the incremented (folder) or same (request) depth. -/
def validateChildrenDepth (allItems : List (String × Item)) (parentID : String)
    (children : List String) (currentDepth : Nat) (visited : List String) :
    Except VErr Unit :=
  match children with
  | [] => .ok ()
  | childID :: rest =>
    match lookupId allItems childID with
    | none => validateChildrenDepth allItems parentID rest currentDepth visited
    | some childItem =>
      if childItem.type = ItemTypeFolder then
        if MaxFolderDepth ≤ currentDepth + 1 then .error (.maxDepthNested parentID)
        else
          match validateFolderDepth allItems childID (currentDepth + 1) visited with
          | .error e => .error e
          | .ok _ => validateChildrenDepth allItems parentID rest currentDepth visited
      else
        match validateFolderDepth allItems childID currentDepth visited with
        | .error e => .error e
        | .ok _ => validateChildrenDepth allItems parentID rest currentDepth visited
termination_by (unvis allItems visited, children.length + 1)
decreasing_by
  all_goals first
    | exact Prod.Lex.right _ (Nat.succ_pos _)
    | exact Prod.Lex.right _ (Nat.lt_succ_self _)

end

/-- The root loop of validateMaxNestingDepth: every unreferenced folder is
walked from depth 0 along an empty visiting path. -/
def rootsWalk (allItems : List (String × Item)) (referenced : List String) :
    List (String × Item) → Except VErr Unit
  | [] => .ok ()
  | (id, it) :: rest =>
    if !referenced.contains id && it.type == ItemTypeFolder then
      match validateFolderDepth allItems id 0 [] with
      | .error e => .error e
      | .ok _ => rootsWalk allItems referenced rest
    else rootsWalk allItems referenced rest

/-- validateMaxNestingDepth of part_009. -/
def validateMaxNestingDepth (allItems : List (String × Item)) :
    Except VErr Unit :=
  rootsWalk allItems (allReferenced allItems) allItems

/-- Validate of part_009: struct tags, type rules (without the request-path
check), the combined reference/root pass, then the depth walk. -/
def Validate (config : RequestsConfig) : Except VErr Unit :=
  match structValidate config with
  | .error e => .error e
  | .ok _ =>
    match itemsPass validateItemTypeSpecificRules config.entries with
    | .error e => .error e
    | .ok _ =>
      match validateReferencesAndRootLevel config.entries with
      | .error e => .error e
      | .ok _ => validateMaxNestingDepth config.entries

end P9

namespace BaseManager

/-- BaseManager.Get of internal/config/core/base.go: the zero value of `T`
when unloaded, otherwise a deep copy (which is the value itself in a pure
embedding).  `zero` stands for Go's `var zero T`. -/
def Get {T : Type} (zero : T) (config : Option T) : T :=
  match config with
  | none => zero
  | some c => c

end BaseManager

/-! ## Versioned migration — the part_008 iteration of requests.go
(`CurrentVersion = 2`, `RootOrder` field, migration 1→2 recomputing the
root order).  Go's nil and empty slices/maps coincide in every use of
this file, so `values` and `rootOrder` are plain lists here. -/

inductive MigErr where
  | unknownVersion (v : Int)
deriving DecidableEq, Repr

namespace P8

structure RequestsConfig where
  version : Int
  values : List (String × Item)
  rootOrder : List String
deriving DecidableEq, Repr

def CurrentVersion : Int := 2

/-- migrateFromVersion of part_008: 0→1 is a no-op; 1→2 appends to
`rootOrder` every folder that no item references and that the order does
not already list (the explicit nil-initialisation of `RootOrder` is the
identity on the list model); any other source version is the fatal
unknown-migration error. -/
def migrateFromVersion (config : RequestsConfig) (fromVersion : Int) :
    Except MigErr RequestsConfig :=
  if fromVersion = 0 then .ok config
  else if fromVersion = 1 then
    let allChildIds := (config.values.map fun kv => kv.2.children).flatten
    let newRoots := (config.values.filter fun kv =>
      !allChildIds.contains kv.1 && kv.2.type == ItemTypeFolder &&
        !config.rootOrder.contains kv.1).map Prod.fst
    .ok { config with rootOrder := config.rootOrder ++ newRoots }
  else .error (.unknownVersion fromVersion)

/-- The `for version := config.Version; version < CurrentVersion; version++`
loop.  The trip count is `CurrentVersion - version` (zero iterations when
the start is at or past `CurrentVersion`); a negative start takes the
unknown-version branch on its first iteration. -/
def migrateLoop : RequestsConfig → Int → Nat → Except MigErr RequestsConfig
  | config, _, 0 => .ok config
  | config, v, fuel + 1 =>
    match migrateFromVersion config v with
    | .error e => .error e
    | .ok c => migrateLoop c (v + 1) fuel

/-- migrateConfig of part_008: a version-0 file is first treated as
version 1; versions below `CurrentVersion` are stepped one at a time and
then stamped `CurrentVersion` (the best-effort re-save of the migrated
file is an ignored side effect); versions at or past `CurrentVersion` are
returned unchanged. -/
def migrateConfig (config0 : RequestsConfig) : Except MigErr RequestsConfig :=
  let config := if config0.version = 0 then { config0 with version := 1 } else config0
  if config.version < CurrentVersion then
    match migrateLoop config config.version (CurrentVersion - config.version).toNat with
    | .error e => .error e
    | .ok c => .ok { c with version := CurrentVersion }
  else .ok config

end P8

/-! ## Storage — internal/configutil (WriteFileAtomic, SaveJSONConfig) and
the direct `Save` of internal/config/requests/requests.go.  The file
system is a flat map from paths to contents; serialization enters the
model as the already-marshalled byte string. -/

/-- A flat file system: path to content. -/
def FS := List (String × String)

def getFile : FS → String → Option String
  | [], _ => none
  | (p, c) :: rest, path => if p = path then some c else getFile rest path

def setFile : FS → String → String → FS
  | [], path, c => [(path, c)]
  | (p, d) :: rest, path, c =>
    if p = path then (path, c) :: rest else (p, d) :: setFile rest path c

def removeFile (fs : FS) (path : String) : FS :=
  fs.filter fun pc => pc.1 != path

/-- The steps of WriteFileAtomic that can fail (internal/configutil
storage.go lines 155–192). -/
inductive AtomicStep where
  | createTemp
  | writeTemp
  | syncTemp
  | closeTemp
  | chmodTemp
  | renameTemp
deriving DecidableEq, Repr

/-- The sibling temporary name.  `os.CreateTemp(dir, base+".tmp.*")` draws a
fresh random suffix; the model uses the deterministic sibling name. -/
def tmpName (filename : String) : String := filename ++ ".tmp"

/-- WriteFileAtomic of internal/configutil/storage.go: create a sibling
temporary file, write the payload into it, sync, close, chmod, and rename
it over the destination.  `failAt` injects a failure into one step; the
deferred cleanup removes the temporary file on every exit, so the
destination is only ever touched by the final rename.  Directory creation
(`EnsureDir`) and permission bits have no counterpart in the flat model. -/
def WriteFileAtomic (fs : FS) (filename data : String)
    (failAt : Option AtomicStep) : Except String Unit × FS :=
  let tmp := tmpName filename
  if failAt = some .createTemp then (.error "failed to create temp file", fs)
  else
    let fs1 := setFile fs tmp ""
    if failAt = some .writeTemp then
      (.error "failed to write temp file", removeFile fs1 tmp)
    else
      let fs2 := setFile fs1 tmp data
      if failAt = some .syncTemp then
        (.error "failed to sync temp file", removeFile fs2 tmp)
      else if failAt = some .closeTemp then
        (.error "failed to close temp file", removeFile fs2 tmp)
      else if failAt = some .chmodTemp then
        (.error "failed to chmod temp file", removeFile fs2 tmp)
      else if failAt = some .renameTemp then
        (.error "failed to rename temp file", removeFile fs2 tmp)
      else (.ok (), setFile (removeFile fs2 tmp) filename data)

/-- SaveJSONConfig of internal/configutil/save.go: marshal (entering the
model as `data`) and hand the bytes to the atomic writer. -/
def SaveJSONConfig (fs : FS) (data filePath : String)
    (failAt : Option AtomicStep) : Except String Unit × FS :=
  WriteFileAtomic fs filePath data failAt

/-- `os.WriteFile`: truncate the destination in place and write; a failure
after `n` bytes leaves the destination holding the written prefix. -/
def osWriteFile (fs : FS) (path data : String) (failAfter : Option Nat) :
    Except String Unit × FS :=
  match failAfter with
  | none => (.ok (), setFile fs path data)
  | some n => (.error "failed to write requests file", setFile fs path (data.take n))

def requestsFile : String := "requests.json"

/-- Save of internal/config/requests/requests.go lines 111–137: ensure the
version, marshal (entering the model as `data`), and write the bytes
directly with `os.WriteFile` — not through the atomic writer. -/
def Save (fs : FS) (data : String) (failAfter : Option Nat) :
    Except String Unit × FS :=
  osWriteFile fs requestsFile data failAfter

/-! ## DeleteItem — spec-modelled.
The repository sources under src/ contain only the caller
(`App.DeleteItem` in app.go); the manager method itself is absent. -/

/-- Children to follow when collecting a folder subtree: a folder's
children, nothing for a request or a missing id. -/
def folderChildrenOf (values : List (String × Item)) (k : String) :
    List String :=
  match lookupId values k with
  | some it => if it.type == ItemTypeFolder then it.children else []
  | none => []

/-- One round of subtree collection: add the children of every folder
already collected, keeping the list duplicate-free. -/
def expandOnce (values : List (String × Item)) (D : List String) :
    List String :=
  D ++ ((D.map (folderChildrenOf values)).flatten.filter
    fun c => !D.contains c).dedup

def expandN (values : List (String × Item)) : Nat → List String → List String
  | 0, D => D
  | n + 1, D => expandN values n (expandOnce values D)

/-- All ids in the folder subtree rooted at `id` (including `id`): iterate
the one-round expansion until it must have reached its fixed point. -/
def subtreeIds (values : List (String × Item)) (id : String) : List String :=
  expandN values ((values.map fun kv => kv.2.children).flatten.length + 1) [id]

/-- The root aggregate of the specification's data model (§3): version,
flattened id-to-Item map, and the display order of root items. -/
structure SpecConfig where
  version : Int
  values : List (String × Item)
  rootOrder : List String
deriving DecidableEq, Repr

/-- Modelled from the spec: `DeleteItem(id)` (§4.5, §3 lifecycle) is absent
from the sources (only the App-layer caller exists).  It fails with
`NotFound` if `id` is absent; otherwise it removes `id` and, when `id` is
a folder, its entire transitive folder subtree, scrubs every reference to
the removed ids from the remaining items' `children` and from
`rootOrder`, validates the resulting tree with the §4.3 validator
(embedded as `P9.Validate`), and commits the result. -/
def DeleteItem (cfg : SpecConfig) (id : String) : Except MgrErr SpecConfig :=
  match lookupId cfg.values id with
  | none => .error .notFound
  | some _ =>
    let D := subtreeIds cfg.values id
    let kept := cfg.values.filter fun kv => !D.contains kv.1
    let keptKeys := kept.map Prod.fst
    let newValues := kept.map fun kv =>
      (kv.1, { kv.2 with children := kv.2.children.filter fun c => keptKeys.contains c })
    let cfg' : SpecConfig :=
      { version := cfg.version, values := newValues,
        rootOrder := cfg.rootOrder.filter fun r => keptKeys.contains r }
    match P9.Validate { version := cfg.version, values := some newValues } with
    | .error e => .error (.validation e)
    | .ok _ => .ok cfg'

/-! ## Specification-side predicates used to state the claims. -/

/-- `r` is referenced: some item's `children` list `r`. -/
def Referenced (allItems : List (String × Item)) (r : String) : Prop :=
  ∃ kv ∈ allItems, r ∈ kv.2.children

/-- A descending chain of `n` child steps through folders, starting at `a`
(so a chain of `n` steps passes through `n + 1` folders). -/
inductive FolderChain (allItems : List (String × Item)) : String → Nat → Prop
  | zero (a : String) (it : Item) (h : lookupId allItems a = some it)
      (hf : it.type = ItemTypeFolder) : FolderChain allItems a 0
  | succ (a b : String) (n : Nat) (ita : Item)
      (h : lookupId allItems a = some ita) (hf : ita.type = ItemTypeFolder)
      (hb : b ∈ ita.children) (hc : FolderChain allItems b n) :
      FolderChain allItems a (n + 1)

/-- Membership in the folder subtree rooted at `root`: `root` itself, and
transitively the children of every folder in the subtree. -/
inductive Desc (values : List (String × Item)) (root : String) : String → Prop
  | base : Desc values root root
  | step (a b : String) (ita : Item) (ha : Desc values root a)
      (h : lookupId values a = some ita) (hf : ita.type = ItemTypeFolder)
      (hb : b ∈ ita.children) : Desc values root b

/-! ## Concrete fixtures for the counterexamples and witnesses. -/

def mkFolder (n : String) (cs : List String) : Item :=
  { type := ItemTypeFolder, name := n, method := "", path := "", children := cs }

def mkRequest (n m p : String) : Item :=
  { type := ItemTypeRequest, name := n, method := m, path := p, children := [] }

/-- A loaded manager holding one committed root folder "F". -/
def loadedState : ManagerState :=
  some { version := 1, values := some [("F", mkFolder "F" [])] }

/-- The patch item of the spec's PatchValues scenario: a request named "a"
whose children list its own id. -/
def selfRefPatchItem : Item :=
  { type := ItemTypeRequest, name := "a", method := "", path := "",
    children := ["id1"] }

/-- Two folders referencing each other, reachable from no root. -/
def cycleABConfig : RequestsConfig :=
  { version := 1,
    values := some [("A", mkFolder "A" ["B"]), ("B", mkFolder "B" ["A"])] }

/-- A cycle reachable from the root folder R: R → A → B → A. -/
def rootedCycleConfig : RequestsConfig :=
  { version := 1,
    values := some [("R", mkFolder "R" ["A"]), ("A", mkFolder "A" ["B"]),
      ("B", mkFolder "B" ["A"])] }

/-- Four chained folders, all well-formed. -/
def deepChainConfig : RequestsConfig :=
  { version := 1,
    values := some [("f0", mkFolder "a" ["f1"]), ("f1", mkFolder "b" ["f2"]),
      ("f2", mkFolder "c" ["f3"]), ("f3", mkFolder "d" [])] }

/-- Four chained folders whose deepest one has an empty name. -/
def deepChainBadNameConfig : RequestsConfig :=
  { version := 1,
    values := some [("f0", mkFolder "a" ["f1"]), ("f1", mkFolder "b" ["f2"]),
      ("f2", mkFolder "c" ["f3"]), ("f3", mkFolder "" [])] }

/-- A folder holding one request that has a path but no method. -/
def noMethodConfig : RequestsConfig :=
  { version := 1,
    values := some [("F", mkFolder "F" ["r1"]), ("r1", mkRequest "L" "" "/u")] }

/-- A folder holding one request that has a method but no path. -/
def noPathConfig : RequestsConfig :=
  { version := 1,
    values := some [("F", mkFolder "F" ["r1"]), ("r1", mkRequest "L" "GET" "")] }

/-- A folder holding one request, with the folder in the root order. -/
def specDeleteConfig : SpecConfig :=
  { version := 1,
    values := [("F", mkFolder "API" ["R"]), ("R", mkRequest "List" "GET" "/users")],
    rootOrder := ["F"] }

/-- `specDeleteConfig` after deleting the request "R". -/
def specDeletedConfig : SpecConfig :=
  { version := 1, values := [("F", mkFolder "API" [])], rootOrder := ["F"] }

/-! # Theorems -/

/-! ## Association-list and scan lemmas -/

theorem lookupId_upsert_self (l : List (String × Item)) (k : String) (v : Item) :
    lookupId (upsertId l k v) k = some v := by
  induction l with
  | nil => simp [upsertId, lookupId]
  | cons hd tl ih =>
    by_cases h : hd.1 = k
    · obtain ⟨a, b⟩ := hd
      simp_all [upsertId, lookupId]
    · obtain ⟨a, b⟩ := hd
      simp_all [upsertId, lookupId]

theorem lookupId_upsert_ne (l : List (String × Item)) (k k' : String) (v : Item)
    (h : k' ≠ k) : lookupId (upsertId l k v) k' = lookupId l k' := by
  induction l with
  | nil => simp [upsertId, lookupId, h, Ne.symm h]
  | cons hd tl ih =>
    obtain ⟨a, b⟩ := hd
    by_cases ha : a = k
    · subst ha
      simp [upsertId, lookupId, Ne.symm h, h]
    · by_cases ha' : a = k'
      · subst ha'
        simp [upsertId, lookupId, h]
      · simp [upsertId, lookupId, ha, ha', ih]

theorem lookupId_some_of_mem_keys {l : List (String × Item)} {k : String}
    (hk : k ∈ l.map Prod.fst) : ∃ it, lookupId l k = some it := by
  induction l with
  | nil => simp at hk
  | cons hd tl ih =>
    by_cases h : hd.1 = k
    · exact ⟨hd.2, by obtain ⟨a, b⟩ := hd; cases h; simp [lookupId]⟩
    · simp only [List.map_cons, List.mem_cons] at hk
      rcases hk with rfl | hk
      · exact absurd rfl h
      · obtain ⟨it, hit⟩ := ih hk
        exact ⟨it, by obtain ⟨a, b⟩ := hd; simpa [lookupId, h] using hit⟩

theorem mem_of_lookupId_some {l : List (String × Item)} {k : String} {it : Item}
    (h : lookupId l k = some it) : (k, it) ∈ l := by
  induction l with
  | nil => simp [lookupId] at h
  | cons hd tl ih =>
    obtain ⟨a, b⟩ := hd
    by_cases ha : a = k
    · subst ha
      simp only [lookupId, if_pos rfl] at h
      cases h
      exact List.mem_cons_self _ _
    · simp only [lookupId, if_neg ha] at h
      exact List.mem_cons_of_mem _ (ih h)

theorem itemsPass_ok {rules : Item → Except RuleErr Unit} :
    ∀ {l : List (String × Item)}, itemsPass rules l = .ok () →
      ∀ kv ∈ l, rules kv.2 = .ok () := by
  intro l
  induction l with
  | nil => intro _ kv hkv; simp at hkv
  | cons hd tl ih =>
    intro h kv hkv
    obtain ⟨a, b⟩ := hd
    cases hr : rules b with
    | error e => simp [itemsPass, hr] at h
    | ok u =>
      cases u
      simp only [itemsPass, hr] at h
      rcases List.mem_cons.mp hkv with rfl | hkv
      · exact hr
      · exact ih h kv hkv

theorem checkSelfRefs_ok :
    ∀ {l : List (String × Item)}, checkSelfRefs l = .ok () →
      ∀ kv ∈ l, kv.1 ∉ kv.2.children := by
  intro l
  induction l with
  | nil => intro _ kv hkv; simp at hkv
  | cons hd tl ih =>
    intro h kv hkv
    obtain ⟨a, b⟩ := hd
    by_cases hc : a ∈ b.children
    · simp [checkSelfRefs, hc] at h
    · rcases List.mem_cons.mp hkv with rfl | hkv
      · exact hc
      · have h' : checkSelfRefs tl = .ok () := by
          simpa [checkSelfRefs, hc] using h
        exact ih h' kv hkv

theorem checkRefsExist_ok {allItems : List (String × Item)} :
    ∀ {refs : List String}, checkRefsExist allItems refs = .ok () →
      ∀ c ∈ refs, ∃ it, lookupId allItems c = some it := by
  intro refs
  induction refs with
  | nil => intro _ c hc; simp at hc
  | cons hd tl ih =>
    intro h c hc
    cases hl : lookupId allItems hd with
    | none => simp [checkRefsExist, hl] at h
    | some it =>
      simp only [checkRefsExist, hl] at h
      rcases List.mem_cons.mp hc with rfl | hc
      · exact ⟨it, hl⟩
      · exact ih h c hc

theorem referenced_iff_contains (l : List (String × Item)) (r : String) :
    Referenced l r ↔ (allReferenced l).contains r = true := by
  unfold Referenced allReferenced
  constructor
  · rintro ⟨kv, hkv, hr⟩
    have hm : r ∈ (l.map fun kv => kv.2.children).flatten :=
      List.mem_flatten.mpr ⟨kv.2.children, List.mem_map.mpr ⟨kv, hkv, rfl⟩, hr⟩
    simpa using hm
  · intro h
    have hm : r ∈ (l.map fun kv => kv.2.children).flatten := by simpa using h
    obtain ⟨cs, hcs, hr⟩ := List.mem_flatten.mp hm
    obtain ⟨kv, hkv, rfl⟩ := List.mem_map.mp hcs
    exact ⟨kv, hkv, hr⟩

/-! ## V1.Validate pass extraction -/

theorem v1_validate_ok_rules {cfg : RequestsConfig}
    (h : V1.Validate cfg = .ok ()) :
    itemsPass V1.validateItemTypeSpecificRules cfg.entries = .ok () := by
  unfold V1.Validate at h
  cases hs : structValidate cfg with
  | error e => rw [hs] at h; exact absurd h (by simp)
  | ok u =>
    cases u
    rw [hs] at h
    cases hi : itemsPass V1.validateItemTypeSpecificRules cfg.entries with
    | error e => rw [hi] at h; exact absurd h (by simp)
    | ok u => cases u; rfl

/-! ## C1 — PatchValues on a failing patch -/

/-- C1: refuted (code bug).  The spec's own scenario: patching
`{id1 ↦ {type: request, name: "a", children: ["id1"]}}` into a loaded
manager returns a validation error, yet — because `mergedConfig :=
*m.config` shares the committed values map — the committed configuration
returned by the next `Get()` already contains the rejected entry. -/
theorem patchValues_failure_mutates_committed_state :
    (PatchValues loadedState [("id1", selfRefPatchItem)]).1 =
      .error (.validation (.item "id1" .noMethod)) ∧
    lookupId (Get (PatchValues loadedState [("id1", selfRefPatchItem)]).2).entries
      "id1" = some selfRefPatchItem := by
  exact ⟨rfl, rfl⟩

/-! ## C2 — AddRequest / AddFolder do not validate -/

/-- C2 counterexample: on a loaded manager whose committed tree holds the
folder "F", `AddRequest("F", "", "BOGUS", "")` succeeds and the committed
configuration now contains an item with an empty name, an unrecognized
HTTP method and an empty path — and indeed no longer validates. -/
theorem addRequest_commits_invalid_item :
    (AddRequest loadedState "n1" "F" "" "BOGUS" "").1 = .ok "n1" ∧
    lookupId (Get (AddRequest loadedState "n1" "F" "" "BOGUS" "").2).entries "n1" =
      some { type := ItemTypeRequest, name := "", method := "BOGUS", path := "",
             children := [] } ∧
    V1.Validate (Get (AddRequest loadedState "n1" "F" "" "BOGUS" "").2) =
      .error .structErr := by
  exact ⟨rfl, rfl, rfl⟩

/-- C2 amended: AddRequest and AddFolder validate nothing; after checking
only that `parentId` names an existing folder they commit the new item
with the given name, method and path verbatim and append its id to the
parent's children. -/
theorem addRequest_addFolder_commit_without_validation
    (cfg : RequestsConfig) (newId parentId name method path : String)
    (parent : Item) (hp : lookupId cfg.entries parentId = some parent)
    (hf : parent.type = ItemTypeFolder)
    (hfresh : lookupId cfg.entries newId = none) :
    (∃ cfg', AddRequest (some cfg) newId parentId name method path =
        (.ok newId, some cfg') ∧
      lookupId cfg'.entries newId = some
        { type := ItemTypeRequest, name := name, method := method, path := path,
          children := [] } ∧
      lookupId cfg'.entries parentId = some
        { type := ItemTypeFolder, name := parent.name, method := "", path := "",
          children := parent.children ++ [newId] }) ∧
    (∃ cfg', AddFolder (some cfg) newId parentId name = (.ok newId, some cfg') ∧
      lookupId cfg'.entries newId = some
        { type := ItemTypeFolder, name := name, method := "", path := "",
          children := [] } ∧
      lookupId cfg'.entries parentId = some
        { type := ItemTypeFolder, name := parent.name, method := "", path := "",
          children := parent.children ++ [newId] }) := by
  have hne : newId ≠ parentId := by
    intro h
    rw [h, hp] at hfresh
    cases hfresh
  constructor
  · refine ⟨⟨cfg.version, some (upsertId (upsertId cfg.entries newId
      ⟨ItemTypeRequest, name, method, path, []⟩) parentId
      ⟨ItemTypeFolder, parent.name, "", "", parent.children ++ [newId]⟩)⟩,
      ?_, ?_, ?_⟩
    · simp [AddRequest, hp, hf]
    · show lookupId (upsertId (upsertId cfg.entries newId _) parentId _) newId = _
      rw [lookupId_upsert_ne _ _ _ _ hne, lookupId_upsert_self]
    · exact lookupId_upsert_self _ _ _
  · refine ⟨⟨cfg.version, some (upsertId (upsertId cfg.entries newId
      ⟨ItemTypeFolder, name, "", "", []⟩) parentId
      ⟨ItemTypeFolder, parent.name, "", "", parent.children ++ [newId]⟩)⟩,
      ?_, ?_, ?_⟩
    · simp [AddFolder, hp, hf]
    · show lookupId (upsertId (upsertId cfg.entries newId _) parentId _) newId = _
      rw [lookupId_upsert_ne _ _ _ _ hne, lookupId_upsert_self]
    · exact lookupId_upsert_self _ _ _

/-- C2 amended, witness at the concrete loaded manager. -/
theorem addRequest_addFolder_commit_without_validation_witness :
    ∃ cfg', AddRequest loadedState "n1" "F" "" "BOGUS" "" = (.ok "n1", some cfg') ∧
      lookupId cfg'.entries "n1" = some
        { type := ItemTypeRequest, name := "", method := "BOGUS", path := "",
          children := [] } ∧
      lookupId cfg'.entries "F" = some
        { type := ItemTypeFolder, name := "F", method := "", path := "",
          children := [] ++ ["n1"] } :=
  (addRequest_addFolder_commit_without_validation
    { version := 1, values := some [("F", mkFolder "F" [])] }
    "n1" "F" "" "BOGUS" "" (mkFolder "F" []) rfl rfl rfl).1

/-! ## C9 — AddRequest with a missing or non-folder parent -/

/-- C9: when `parentId` is absent from the committed values, or names an
item that is not a folder, `AddRequest` returns the not-found error and
leaves the committed state exactly as it was. -/
theorem addRequest_notFound_leaves_state_unchanged
    (cfg : RequestsConfig) (newId parentId name method path : String)
    (h : lookupId cfg.entries parentId = none ∨
      ∃ it, lookupId cfg.entries parentId = some it ∧ it.type ≠ ItemTypeFolder) :
    AddRequest (some cfg) newId parentId name method path =
      (.error .parentNotFound, some cfg) := by
  rcases h with h | ⟨it, hit, hty⟩
  · simp [AddRequest, h]
  · simp [AddRequest, hit, hty]

/-- C9 witness: the spec's scenario `AddRequest("missing-parent", "x",
"GET", "/x")` on the concrete loaded manager. -/
theorem addRequest_notFound_witness :
    AddRequest loadedState "n1" "missing-parent" "x" "GET" "/x" =
      (.error .parentNotFound,
        some { version := 1, values := some [("F", mkFolder "F" [])] }) :=
  addRequest_notFound_leaves_state_unchanged
    { version := 1, values := some [("F", mkFolder "F" [])] }
    "n1" "missing-parent" "x" "GET" "/x" (Or.inl rfl)

/-! ## C10 — Get before Load -/

/-- C10: `Get` on an unloaded requests manager returns the fresh empty
configuration at `CurrentVersion`; the generic `BaseManager.Get` returns
the zero value; and the mutation operations (not the reads) are the ones
rejected with the not-loaded error. -/
theorem get_before_load_returns_empty_config :
    Get (none : ManagerState) = NewRequestsConfig ∧
    NewRequestsConfig.version = CurrentVersion ∧
    NewRequestsConfig.entries = [] ∧
    (∀ (T : Type) (zero : T), BaseManager.Get zero none = zero) ∧
    (∀ values, (PatchValues none values).1 = .error .notLoaded) ∧
    (∀ newId parentId name method path,
      (AddRequest none newId parentId name method path).1 = .error .notLoaded) ∧
    (∀ newId parentId name,
      (AddFolder none newId parentId name).1 = .error .notLoaded) :=
  ⟨rfl, rfl, rfl, fun _ _ => rfl, fun _ => rfl, fun _ _ _ _ _ => rfl,
    fun _ _ _ => rfl⟩


/-! ## C7 — atomic writes and requests.go Save -/

theorem getFile_set_self (fs : FS) (p c : String) :
    getFile (setFile fs p c) p = some c := by
  induction fs with
  | nil => simp [setFile, getFile]
  | cons hd tl ih =>
    obtain ⟨q, d⟩ := hd
    by_cases h : q = p
    · simp [setFile, getFile, h]
    · simp [setFile, getFile, h, ih]

theorem getFile_set_ne (fs : FS) (p c q : String) (h : q ≠ p) :
    getFile (setFile fs p c) q = getFile fs q := by
  induction fs with
  | nil => simp [setFile, getFile, h, Ne.symm h]
  | cons hd tl ih =>
    obtain ⟨a, d⟩ := hd
    by_cases ha : a = p
    · subst ha
      simp [setFile, getFile, Ne.symm h]
    · by_cases ha' : a = q
      · simp [setFile, getFile, ha, ha', h]
      · simp [setFile, getFile, ha, ha', ih]

theorem getFile_remove_self (fs : FS) (p : String) :
    getFile (removeFile fs p) p = none := by
  induction fs with
  | nil => simp [removeFile, getFile]
  | cons hd tl ih =>
    obtain ⟨a, d⟩ := hd
    by_cases ha : a = p
    · simpa [removeFile, List.filter_cons, ha] using ih
    · simpa [removeFile, List.filter_cons, ha, getFile] using ih

theorem getFile_remove_ne (fs : FS) (p q : String) (h : q ≠ p) :
    getFile (removeFile fs p) q = getFile fs q := by
  induction fs with
  | nil => simp [removeFile, getFile]
  | cons hd tl ih =>
    obtain ⟨a, d⟩ := hd
    by_cases ha : a = p
    · subst ha
      simpa [removeFile, List.filter_cons, getFile, Ne.symm h] using ih
    · by_cases ha' : a = q
      · simp [removeFile, List.filter_cons, ha, ha', getFile, h]
      · simpa [removeFile, List.filter_cons, ha, ha', getFile] using ih

theorem tmpName_ne (f : String) : tmpName f ≠ f := by
  intro h
  have hl := congrArg String.length h
  rw [tmpName, String.length_append] at hl
  have h4 : (".tmp" : String).length = 4 := rfl
  rw [h4] at hl
  omega

/-- C7 amended: every save routed through SaveJSONConfig hands the
marshalled bytes to WriteFileAtomic, which writes a sibling temporary
file, syncs, chmods and renames it over the destination; a failure at any
step removes the temporary file (beyond the create step, which never
produces one) and leaves the destination's previous content untouched,
while only a fully successful run replaces the destination with the
payload.  The package-level `Save` of requests.go, however, bypasses this
writer (see the counterexample). -/
theorem writeFileAtomic_atomicity (fs : FS) (filename data : String)
    (failAt : Option AtomicStep) :
    (failAt ≠ none →
      (∃ msg, (WriteFileAtomic fs filename data failAt).1 = .error msg) ∧
      getFile (WriteFileAtomic fs filename data failAt).2 filename =
        getFile fs filename) ∧
    ((failAt ≠ none ∧ failAt ≠ some .createTemp) →
      getFile (WriteFileAtomic fs filename data failAt).2 (tmpName filename) =
        none) ∧
    (failAt = none →
      (WriteFileAtomic fs filename data failAt).1 = .ok () ∧
      getFile (WriteFileAtomic fs filename data failAt).2 filename = some data ∧
      getFile (WriteFileAtomic fs filename data failAt).2 (tmpName filename) =
        none) := by
  have hne := tmpName_ne filename
  have hne' : filename ≠ tmpName filename := Ne.symm hne
  rcases failAt with _ | st
  · have hstep : WriteFileAtomic fs filename data none =
        (.ok (), setFile (removeFile (setFile (setFile fs (tmpName filename) "")
          (tmpName filename) data) (tmpName filename)) filename data) := rfl
    refine ⟨fun h => absurd rfl h, fun h => absurd rfl h.1, fun _ => ⟨?_, ?_, ?_⟩⟩
    · rw [hstep]
    · rw [hstep]
      exact getFile_set_self _ _ _
    · rw [hstep]
      rw [getFile_set_ne _ _ _ _ hne, getFile_remove_self]
  · cases st
    · have hstep : WriteFileAtomic fs filename data (some .createTemp) =
          (.error "failed to create temp file", fs) := rfl
      exact ⟨fun _ => ⟨⟨_, by rw [hstep]⟩, by rw [hstep]⟩,
        fun h => absurd rfl h.2, fun h => by cases h⟩
    · have hstep : WriteFileAtomic fs filename data (some .writeTemp) =
          (.error "failed to write temp file",
            removeFile (setFile fs (tmpName filename) "") (tmpName filename)) := rfl
      refine ⟨fun _ => ⟨⟨_, by rw [hstep]⟩, ?_⟩, fun _ => ?_, fun h => by cases h⟩
      · rw [hstep, getFile_remove_ne _ _ _ hne', getFile_set_ne _ _ _ _ hne']
      · rw [hstep, getFile_remove_self]
    · have hstep : WriteFileAtomic fs filename data (some .syncTemp) =
          (.error "failed to sync temp file",
            removeFile (setFile (setFile fs (tmpName filename) "")
              (tmpName filename) data) (tmpName filename)) := rfl
      refine ⟨fun _ => ⟨⟨_, by rw [hstep]⟩, ?_⟩, fun _ => ?_, fun h => by cases h⟩
      · rw [hstep, getFile_remove_ne _ _ _ hne', getFile_set_ne _ _ _ _ hne',
          getFile_set_ne _ _ _ _ hne']
      · rw [hstep, getFile_remove_self]
    · have hstep : WriteFileAtomic fs filename data (some .closeTemp) =
          (.error "failed to close temp file",
            removeFile (setFile (setFile fs (tmpName filename) "")
              (tmpName filename) data) (tmpName filename)) := rfl
      refine ⟨fun _ => ⟨⟨_, by rw [hstep]⟩, ?_⟩, fun _ => ?_, fun h => by cases h⟩
      · rw [hstep, getFile_remove_ne _ _ _ hne', getFile_set_ne _ _ _ _ hne',
          getFile_set_ne _ _ _ _ hne']
      · rw [hstep, getFile_remove_self]
    · have hstep : WriteFileAtomic fs filename data (some .chmodTemp) =
          (.error "failed to chmod temp file",
            removeFile (setFile (setFile fs (tmpName filename) "")
              (tmpName filename) data) (tmpName filename)) := rfl
      refine ⟨fun _ => ⟨⟨_, by rw [hstep]⟩, ?_⟩, fun _ => ?_, fun h => by cases h⟩
      · rw [hstep, getFile_remove_ne _ _ _ hne', getFile_set_ne _ _ _ _ hne',
          getFile_set_ne _ _ _ _ hne']
      · rw [hstep, getFile_remove_self]
    · have hstep : WriteFileAtomic fs filename data (some .renameTemp) =
          (.error "failed to rename temp file",
            removeFile (setFile (setFile fs (tmpName filename) "")
              (tmpName filename) data) (tmpName filename)) := rfl
      refine ⟨fun _ => ⟨⟨_, by rw [hstep]⟩, ?_⟩, fun _ => ?_, fun h => by cases h⟩
      · rw [hstep, getFile_remove_ne _ _ _ hne', getFile_set_ne _ _ _ _ hne',
          getFile_set_ne _ _ _ _ hne']
      · rw [hstep, getFile_remove_self]

/-- C7 amended, witness: a sync failure over an existing destination leaves
its old content and no temporary file. -/
theorem writeFileAtomic_atomicity_witness :
    (∃ msg, (WriteFileAtomic [("requests.json", "OLD")] "requests.json" "NEW"
      (some .syncTemp)).1 = .error msg) ∧
    getFile (WriteFileAtomic [("requests.json", "OLD")] "requests.json" "NEW"
      (some .syncTemp)).2 "requests.json" = some "OLD" := by
  have h := (writeFileAtomic_atomicity [("requests.json", "OLD")]
    "requests.json" "NEW" (some .syncTemp)).1 (by simp)
  exact ⟨h.1, by rw [h.2]; rfl⟩

/-- C7 counterexample: the package-level `Save` of requests.go writes the
destination in place with `os.WriteFile`; a failure mid-write leaves the
destination holding a partial payload — neither the old nor the new
content — so a reader can observe a partially written file. -/
theorem save_direct_write_leaves_partial_file :
    (Save [("requests.json", "OLD")] "NEWDATA" (some 3)).1 =
      .error "failed to write requests file" ∧
    getFile (Save [("requests.json", "OLD")] "NEWDATA" (some 3)).2
      "requests.json" = some "NEW" := by
  exact ⟨rfl, rfl⟩

/-! ## C8 — migration state machine (part_008) -/

/-- C8 counterexample: version 3 has no defined transition
(`CurrentVersion = 2`), yet `migrateConfig` accepts it unchanged instead
of failing with a migration error. -/
theorem migrateConfig_accepts_unknown_future_version :
    P8.migrateConfig ⟨3, [], []⟩ = .ok ⟨3, [], []⟩ ∧
    (3 : Int) ≠ P8.CurrentVersion := by
  exact ⟨rfl, by decide⟩

/-- C8 amended: migration steps the version one transition at a time only
for source versions below `CurrentVersion`: version 0 is first renumbered
to 1, versions 0 and 1 then reach `CurrentVersion` with the item data
untouched and `rootOrder` extended with every unreferenced folder;
a version below `CurrentVersion` with no defined transition (a negative
version) fails with the unknown-version migration error; and versions at
or above `CurrentVersion` are returned unchanged without any error. -/
theorem migrateConfig_stepwise (cfg : P8.RequestsConfig) :
    (P8.CurrentVersion ≤ cfg.version → P8.migrateConfig cfg = .ok cfg) ∧
    (cfg.version < 0 →
      P8.migrateConfig cfg = .error (.unknownVersion cfg.version)) ∧
    ((cfg.version = 0 ∨ cfg.version = 1) →
      ∃ ro, P8.migrateConfig cfg =
          .ok ⟨P8.CurrentVersion, cfg.values, ro⟩ ∧
        (∀ r ∈ cfg.rootOrder, r ∈ ro) ∧
        (∀ kv ∈ cfg.values, kv.2.type = ItemTypeFolder →
          ¬ Referenced cfg.values kv.1 → kv.1 ∈ ro)) := by
  refine ⟨fun h => ?_, fun h => ?_, fun h => ?_⟩
  · have h0 : cfg.version ≠ 0 := by
      intro h0
      rw [h0] at h
      exact absurd h (by decide)
    have hlt : ¬ (cfg.version < P8.CurrentVersion) := not_lt.mpr h
    simp [P8.migrateConfig, h0, hlt]
  · have h0 : cfg.version ≠ 0 := by omega
    have hlt : cfg.version < P8.CurrentVersion := by
      unfold P8.CurrentVersion
      omega
    have hfuel : ∃ n, (P8.CurrentVersion - cfg.version).toNat = n + 1 := by
      refine ⟨(P8.CurrentVersion - cfg.version).toNat - 1, ?_⟩
      unfold P8.CurrentVersion at *
      omega
    obtain ⟨n, hn⟩ := hfuel
    have hv1 : cfg.version ≠ 1 := by omega
    simp [P8.migrateConfig, h0, hlt, hn, P8.migrateLoop, P8.migrateFromVersion,
      hv1]
  · have key : ∀ (c : P8.RequestsConfig), c.version = 1 →
        ∃ ro, P8.migrateConfig c = .ok ⟨P8.CurrentVersion, c.values, ro⟩ ∧
          (∀ r ∈ c.rootOrder, r ∈ ro) ∧
          (∀ kv ∈ c.values, kv.2.type = ItemTypeFolder →
            ¬ Referenced c.values kv.1 → kv.1 ∈ ro) := by
      intro c hc
      have h0 : c.version ≠ 0 := by omega
      have hlt : c.version < P8.CurrentVersion := by
        unfold P8.CurrentVersion
        omega
      have hn : (P8.CurrentVersion - c.version).toNat = 1 := by
        unfold P8.CurrentVersion at *
        omega
      refine ⟨c.rootOrder ++ ((c.values.filter fun kv =>
        !(allReferenced c.values).contains kv.1 &&
          kv.2.type == ItemTypeFolder &&
          !c.rootOrder.contains kv.1).map Prod.fst), ?_, ?_, ?_⟩
      · simp [P8.migrateConfig, h0, hlt, hn, P8.migrateLoop,
          P8.migrateFromVersion, hc, allReferenced, P8.CurrentVersion]
      · intro r hr
        exact List.mem_append_left _ hr
      · intro kv hkv hf hnr
        by_cases hro : kv.1 ∈ c.rootOrder
        · exact List.mem_append_left _ hro
        · refine List.mem_append_right _ ?_
          refine List.mem_map.mpr ⟨kv, ?_, rfl⟩
          refine List.mem_filter.mpr ⟨hkv, ?_⟩
          have h1 : kv.1 ∉ allReferenced c.values := by
            intro hmem
            exact hnr ((referenced_iff_contains _ _).mpr (by simpa using hmem))
          rw [allReferenced] at h1
          simp [h1, hf, hro, allReferenced]
    rcases h with h | h
    · obtain ⟨ro, hro, hmono, hcomp⟩ := key ⟨1, cfg.values, cfg.rootOrder⟩ rfl
      refine ⟨ro, ?_, hmono, hcomp⟩
      have : P8.migrateConfig cfg = P8.migrateConfig ⟨1, cfg.values, cfg.rootOrder⟩ := by
        unfold P8.migrateConfig
        simp only [h]
        norm_num
      rw [this, hro]
    · have hcfg : cfg = ⟨1, cfg.values, cfg.rootOrder⟩ := by
        obtain ⟨v, vs, ro⟩ := cfg
        simp only at h
        rw [h]
      rw [hcfg]
      exact key ⟨1, cfg.values, cfg.rootOrder⟩ rfl

/-- C8 amended, witness: a version-1 config with one unreferenced folder is
migrated to version 2 with that folder appended to the root order. -/
theorem migrateConfig_stepwise_witness :
    ∃ ro, P8.migrateConfig ⟨1, [("F", mkFolder "API" [])], []⟩ =
        .ok ⟨P8.CurrentVersion, [("F", mkFolder "API" [])], ro⟩ ∧
      (∀ r ∈ ([] : List String), r ∈ ro) ∧
      (∀ kv ∈ [("F", mkFolder "API" [])], kv.2.type = ItemTypeFolder →
        ¬ Referenced [("F", mkFolder "API" [])] kv.1 → kv.1 ∈ ro) :=
  (migrateConfig_stepwise ⟨1, [("F", mkFolder "API" [])], []⟩).2.2 (Or.inr rfl)

/-! ## C4 — cycle handling of the part_009 validator -/

theorem rootsWalk_all_referenced {allItems : List (String × Item)}
    {referenced : List String} :
    ∀ {l : List (String × Item)}, (∀ kv ∈ l, referenced.contains kv.1 = true) →
      P9.rootsWalk allItems referenced l = .ok () := by
  intro l
  induction l with
  | nil => intro _; rfl
  | cons hd tl ih =>
    intro h
    obtain ⟨a, b⟩ := hd
    have ha := h (a, b) (List.mem_cons_self _ _)
    simp only [P9.rootsWalk, ha]
    exact ih fun kv hkv => h kv (List.mem_cons_of_mem _ hkv)

/-- C4 counterexample: the indirect cycle A→B→A (neither folder is a root)
is accepted by Validate — no circular-reference or other structural error
is reported. -/
theorem validate_accepts_unrooted_cycle :
    lookupId cycleABConfig.entries "A" = some (mkFolder "A" ["B"]) ∧
    lookupId cycleABConfig.entries "B" = some (mkFolder "B" ["A"]) ∧
    P9.Validate cycleABConfig = .ok () := by
  exact ⟨rfl, rfl, rfl⟩

/-- C4 amended: Validate (embedded as a total function, so it terminates on
every configuration) detects indirect cycles only along depth walks
started at root items: in a configuration in which every item is
referenced — as in any pure cycle such as A→B→A — the depth walk starts
nowhere, and when the shape, type-rule and reference passes succeed,
Validate accepts the configuration instead of reporting the cycle. -/
theorem validate_ok_when_all_items_referenced (cfg : RequestsConfig)
    (h1 : structValidate cfg = .ok ())
    (h2 : itemsPass P9.validateItemTypeSpecificRules cfg.entries = .ok ())
    (h3 : P9.validateReferencesAndRootLevel cfg.entries = .ok ())
    (hall : ∀ kv ∈ cfg.entries, Referenced cfg.entries kv.1) :
    P9.Validate cfg = .ok () := by
  unfold P9.Validate
  rw [h1, h2, h3]
  unfold P9.validateMaxNestingDepth
  exact rootsWalk_all_referenced fun kv hkv =>
    (referenced_iff_contains _ _).mp (hall kv hkv)

/-- C4 amended, witness: the A→B→A configuration passes every earlier check
and every item in it is referenced, so Validate accepts it. -/
theorem validate_ok_when_all_items_referenced_witness :
    P9.Validate cycleABConfig = .ok () :=
  validate_ok_when_all_items_referenced cycleABConfig rfl rfl rfl
    (by unfold Referenced; decide)

/-! ## C5 — the depth walk: unfolding lemmas -/

theorem walk_eq (allItems : List (String × Item)) (itemID : String)
    (d : Nat) (vis : List String) :
    P9.validateFolderDepth allItems itemID d vis =
      if vis.contains itemID then .error (.depthCycle itemID)
      else
        match lookupId allItems itemID with
        | none => .error (.depthNotFound itemID)
        | some item =>
          if item.type = ItemTypeFolder then
            if P9.MaxFolderDepth ≤ d then .error (.maxDepth itemID)
            else P9.validateChildrenDepth allItems itemID item.children d
              (itemID :: vis)
          else .ok () := by
  rw [P9.validateFolderDepth]
  by_cases hv : itemID ∈ vis
  · have hv' : vis.contains itemID = true := by simpa using hv
    rw [dif_pos hv', if_pos hv']
  · have hv' : ¬ (vis.contains itemID = true) := by simpa using hv
    rw [dif_neg hv', if_neg hv']
    cases hl : lookupId allItems itemID with
    | none => rfl
    | some item => rfl

theorem children_nil_eq (allItems : List (String × Item)) (parentID : String)
    (d : Nat) (vis : List String) :
    P9.validateChildrenDepth allItems parentID [] d vis = .ok () := by
  rw [P9.validateChildrenDepth]

theorem children_cons_eq (allItems : List (String × Item)) (parentID : String)
    (c : String) (rest : List String) (d : Nat) (vis : List String) :
    P9.validateChildrenDepth allItems parentID (c :: rest) d vis =
      match lookupId allItems c with
      | none => P9.validateChildrenDepth allItems parentID rest d vis
      | some childItem =>
        if childItem.type = ItemTypeFolder then
          if P9.MaxFolderDepth ≤ d + 1 then .error (.maxDepthNested parentID)
          else
            match P9.validateFolderDepth allItems c (d + 1) vis with
            | .error e => .error e
            | .ok _ => P9.validateChildrenDepth allItems parentID rest d vis
        else
          match P9.validateFolderDepth allItems c d vis with
          | .error e => .error e
          | .ok _ => P9.validateChildrenDepth allItems parentID rest d vis := by
  rw [P9.validateChildrenDepth]

/-! ## C5 — a successful walk bounds every folder chain -/

theorem folderChain_head {allItems : List (String × Item)} {a : String} {n : Nat}
    (h : FolderChain allItems a n) :
    ∃ it, lookupId allItems a = some it ∧ it.type = ItemTypeFolder := by
  cases h with
  | zero _ it hl hf => exact ⟨it, hl, hf⟩
  | succ _ b n ita hl hf hb hc => exact ⟨ita, hl, hf⟩

theorem childrenDepth_ok_spec {allItems : List (String × Item)}
    {parentID : String} {d : Nat} {vis : List String} :
    ∀ {cs : List String},
      P9.validateChildrenDepth allItems parentID cs d vis = .ok () →
      ∀ c ∈ cs, ∀ cit, lookupId allItems c = some cit →
        (cit.type = ItemTypeFolder →
          ¬ P9.MaxFolderDepth ≤ d + 1 ∧
          P9.validateFolderDepth allItems c (d + 1) vis = .ok ()) ∧
        (cit.type ≠ ItemTypeFolder →
          P9.validateFolderDepth allItems c d vis = .ok ()) := by
  intro cs
  induction cs with
  | nil => intro _ c hc; simp at hc
  | cons c0 rest ih =>
    intro h c hc cit hcit
    rw [children_cons_eq] at h
    rcases List.mem_cons.mp hc with rfl | hc
    · simp only [hcit] at h
      by_cases hf : cit.type = ItemTypeFolder
      · rw [if_pos hf] at h
        by_cases hd : P9.MaxFolderDepth ≤ d + 1
        · rw [if_pos hd] at h
          simp at h
        · rw [if_neg hd] at h
          refine ⟨fun _ => ⟨hd, ?_⟩, fun hnf => absurd hf hnf⟩
          cases hw : P9.validateFolderDepth allItems c (d + 1) vis with
          | error e => simp [hw] at h
          | ok u => cases u; rfl
      · rw [if_neg hf] at h
        refine ⟨fun hf' => absurd hf' hf, fun _ => ?_⟩
        cases hw : P9.validateFolderDepth allItems c d vis with
        | error e => simp [hw] at h
        | ok u => cases u; rfl
    · cases hl0 : lookupId allItems c0 with
      | none =>
        simp only [hl0] at h
        exact ih h c hc cit hcit
      | some cit0 =>
        simp only [hl0] at h
        by_cases hf0 : cit0.type = ItemTypeFolder
        · rw [if_pos hf0] at h
          by_cases hd0 : P9.MaxFolderDepth ≤ d + 1
          · rw [if_pos hd0] at h
            simp at h
          · rw [if_neg hd0] at h
            cases hw : P9.validateFolderDepth allItems c0 (d + 1) vis with
            | error e => simp [hw] at h
            | ok u => cases u; simp only [hw] at h; exact ih h c hc cit hcit
        · rw [if_neg hf0] at h
          cases hw : P9.validateFolderDepth allItems c0 d vis with
          | error e => simp [hw] at h
          | ok u => cases u; simp only [hw] at h; exact ih h c hc cit hcit

theorem walk_ne_ok_of_chain {allItems : List (String × Item)} :
    ∀ {a : String} {n : Nat}, FolderChain allItems a n →
      ∀ (d : Nat) (vis : List String), 3 ≤ d + n →
        P9.validateFolderDepth allItems a d vis ≠ .ok () := by
  have hmax : P9.MaxFolderDepth = 3 := rfl
  intro a n h
  induction h with
  | zero a it hl hf =>
    intro d vis hd hok
    rw [walk_eq] at hok
    by_cases hv : vis.contains a = true
    · rw [if_pos hv] at hok
      simp at hok
    · rw [if_neg hv] at hok
      simp only [hl] at hok
      rw [if_pos hf, if_pos (by rw [hmax]; omega)] at hok
      simp at hok
  | succ a b n ita hl hf hb hc ih =>
    intro d vis hd hok
    rw [walk_eq] at hok
    by_cases hv : vis.contains a = true
    · rw [if_pos hv] at hok
      simp at hok
    · rw [if_neg hv] at hok
      simp only [hl] at hok
      rw [if_pos hf] at hok
      by_cases hdd : P9.MaxFolderDepth ≤ d
      · rw [if_pos hdd] at hok
        simp at hok
      · rw [if_neg hdd] at hok
        obtain ⟨itb, hlb, hfb⟩ := folderChain_head hc
        have hspec := (childrenDepth_ok_spec hok b hb itb hlb).1 hfb
        exact ih (d + 1) (a :: vis) (by omega) hspec.2

theorem rootsWalk_ok_spec {allItems : List (String × Item)}
    {referenced : List String} :
    ∀ {l : List (String × Item)}, P9.rootsWalk allItems referenced l = .ok () →
      ∀ kv ∈ l, referenced.contains kv.1 = false →
        kv.2.type = ItemTypeFolder →
        P9.validateFolderDepth allItems kv.1 0 [] = .ok () := by
  intro l
  induction l with
  | nil => intro _ kv hkv; simp at hkv
  | cons hd tl ih =>
    intro h kv hkv href hty
    obtain ⟨a, b⟩ := hd
    rcases List.mem_cons.mp hkv with heq | hkv
    · cases heq
      have href' : a ∉ referenced := by simpa using href
      have hty' : b.type = ItemTypeFolder := hty
      have hcond : (!referenced.contains a && b.type == ItemTypeFolder) =
          true := by
        simp [href', hty']
      rw [P9.rootsWalk, if_pos hcond] at h
      cases hw : P9.validateFolderDepth allItems a 0 [] with
      | error e => simp [hw] at h
      | ok u => cases u; rfl
    · by_cases hcond : (!referenced.contains a && b.type == ItemTypeFolder) = true
      · rw [P9.rootsWalk, if_pos hcond] at h
        cases hw : P9.validateFolderDepth allItems a 0 [] with
        | error e => simp [hw] at h
        | ok u => cases u; simp only [hw] at h; exact ih h kv hkv href hty
      · rw [P9.rootsWalk, if_neg hcond] at h
        exact ih h kv hkv href hty

theorem p9_validate_ok_passes {cfg : RequestsConfig}
    (h : P9.Validate cfg = .ok ()) :
    structValidate cfg = .ok () ∧
    itemsPass P9.validateItemTypeSpecificRules cfg.entries = .ok () ∧
    P9.validateReferencesAndRootLevel cfg.entries = .ok () ∧
    P9.validateMaxNestingDepth cfg.entries = .ok () := by
  unfold P9.Validate at h
  cases h1 : structValidate cfg with
  | error e => rw [h1] at h; simp at h
  | ok u =>
    cases u
    rw [h1] at h
    cases h2 : itemsPass P9.validateItemTypeSpecificRules cfg.entries with
    | error e => rw [h2] at h; simp at h
    | ok u =>
      cases u
      rw [h2] at h
      cases h3 : P9.validateReferencesAndRootLevel cfg.entries with
      | error e => rw [h3] at h; simp at h
      | ok u =>
        cases u
        rw [h3] at h
        exact ⟨rfl, rfl, rfl, h⟩

/-! ## C5 — a max-depth error exhibits a deep folder chain -/

theorem folderChain_trunc {allItems : List (String × Item)} :
    ∀ {a : String} {n : Nat}, FolderChain allItems a n →
      ∀ m, m ≤ n → FolderChain allItems a m := by
  intro a n h
  induction h with
  | zero a it hl hf =>
    intro m hm
    interval_cases m
    exact .zero a it hl hf
  | succ a b n ita hl hf hb hc ih =>
    intro m hm
    cases m with
    | zero => exact .zero a ita hl hf
    | succ m' => exact .succ a b m' ita hl hf hb (ih m' (by omega))

theorem children_error_chain {allItems : List (String × Item)}
    {parentID : String} {pit : Item}
    (hp : lookupId allItems parentID = some pit)
    (hpf : pit.type = ItemTypeFolder) {d : Nat} {vis' : List String}
    (walkIH : ∀ (c : String) (j : String),
      (P9.validateFolderDepth allItems c (d + 1) vis' = .error (.maxDepth j) ∨
        P9.validateFolderDepth allItems c (d + 1) vis' =
          .error (.maxDepthNested j)) →
      ∃ m, FolderChain allItems c m ∧ 3 ≤ (d + 1) + m) :
    ∀ {cs : List String}, (∀ c ∈ cs, c ∈ pit.children) →
      ∀ j, (P9.validateChildrenDepth allItems parentID cs d vis' =
          .error (.maxDepth j) ∨
        P9.validateChildrenDepth allItems parentID cs d vis' =
          .error (.maxDepthNested j)) →
      ∃ m, FolderChain allItems parentID m ∧ 3 ≤ d + m := by
  have hmax : P9.MaxFolderDepth = 3 := rfl
  intro cs
  induction cs with
  | nil =>
    intro _ j h
    rw [children_nil_eq] at h
    rcases h with h | h <;> simp at h
  | cons c rest ih =>
    intro hsub j h
    have hcmem : c ∈ pit.children := hsub c (List.mem_cons_self _ _)
    have hrest : ∀ c' ∈ rest, c' ∈ pit.children :=
      fun c' hc' => hsub c' (List.mem_cons_of_mem _ hc')
    rw [children_cons_eq] at h
    cases hl : lookupId allItems c with
    | none =>
      simp only [hl] at h
      exact ih hrest j h
    | some cit =>
      simp only [hl] at h
      by_cases hf : cit.type = ItemTypeFolder
      · rw [if_pos hf] at h
        by_cases hd : P9.MaxFolderDepth ≤ d + 1
        · rw [if_pos hd] at h
          refine ⟨1, .succ parentID c 0 pit hp hpf hcmem (.zero c cit hl hf), ?_⟩
          rw [hmax] at hd
          omega
        · rw [if_neg hd] at h
          cases hw : P9.validateFolderDepth allItems c (d + 1) vis' with
          | error e =>
            simp only [hw] at h
            have he : e = .maxDepth j ∨ e = .maxDepthNested j := by
              rcases h with h | h <;> [left; right] <;> exact (Except.error.inj h)
            obtain ⟨m, hchain, hm⟩ := walkIH c j (by
              rcases he with rfl | rfl
              · exact Or.inl hw
              · exact Or.inr hw)
            exact ⟨m + 1, .succ parentID c m pit hp hpf hcmem hchain, by omega⟩
          | ok u =>
            cases u
            simp only [hw] at h
            exact ih hrest j h
      · rw [if_neg hf] at h
        cases hw : P9.validateFolderDepth allItems c d vis' with
        | error e =>
          simp only [hw] at h
          have hwe := hw
          rw [walk_eq] at hwe
          by_cases hv : vis'.contains c = true
          · rw [if_pos hv] at hwe
            have : e = .depthCycle c := (Except.error.inj hwe).symm
            subst this
            rcases h with h | h <;> exact absurd (Except.error.inj h) (by simp)
          · rw [if_neg hv] at hwe
            simp only [hl] at hwe
            rw [if_neg hf] at hwe
            simp at hwe
        | ok u =>
          cases u
          simp only [hw] at h
          exact ih hrest j h

theorem walk_error_chain {allItems : List (String × Item)} :
    ∀ (N : Nat), ∀ (id : String) (d : Nat) (vis : List String),
      P9.unvis allItems vis ≤ N →
      ∀ j, (P9.validateFolderDepth allItems id d vis = .error (.maxDepth j) ∨
        P9.validateFolderDepth allItems id d vis = .error (.maxDepthNested j)) →
      ∃ m, FolderChain allItems id m ∧ 3 ≤ d + m := by
  have hmax : P9.MaxFolderDepth = 3 := rfl
  intro N
  induction N using Nat.strong_induction_on with
  | _ N ihN =>
    intro id d vis hN j h
    have hwalk := walk_eq allItems id d vis
    by_cases hv : vis.contains id = true
    · rw [if_pos hv] at hwalk
      rw [hwalk] at h
      rcases h with h | h <;> exact absurd (Except.error.inj h) (by simp)
    · rw [if_neg hv] at hwalk
      cases hl : lookupId allItems id with
      | none =>
        simp only [hl] at hwalk
        rw [hwalk] at h
        rcases h with h | h <;> exact absurd (Except.error.inj h) (by simp)
      | some item =>
        simp only [hl] at hwalk
        by_cases hf : item.type = ItemTypeFolder
        · rw [if_pos hf] at hwalk
          by_cases hd : P9.MaxFolderDepth ≤ d
          · refine ⟨0, .zero id item hl hf, ?_⟩
            rw [hmax] at hd
            omega
          · rw [if_neg hd] at hwalk
            rw [hwalk] at h
            have hlt : P9.unvis allItems (id :: vis) < P9.unvis allItems vis :=
              P9.unvis_cons_lt (P9.mem_keys_of_lookupId hl)
                (Bool.eq_false_iff.mpr hv)
            have walkIH : ∀ (c : String) (j' : String),
                (P9.validateFolderDepth allItems c (d + 1) (id :: vis) =
                    .error (.maxDepth j') ∨
                  P9.validateFolderDepth allItems c (d + 1) (id :: vis) =
                    .error (.maxDepthNested j')) →
                ∃ m, FolderChain allItems c m ∧ 3 ≤ (d + 1) + m := by
              intro c j' hcw
              exact ihN (P9.unvis allItems (id :: vis)) (by omega) c (d + 1)
                (id :: vis) (le_refl _) j' hcw
            exact children_error_chain hl hf walkIH (fun c hc => hc) j h
        · rw [if_neg hf] at hwalk
          rw [hwalk] at h
          rcases h with h | h <;> simp at h

theorem rootsWalk_error_spec {allItems : List (String × Item)}
    {referenced : List String} :
    ∀ {l : List (String × Item)}, ∀ e,
      P9.rootsWalk allItems referenced l = .error e →
      ∃ kv ∈ l, referenced.contains kv.1 = false ∧
        kv.2.type = ItemTypeFolder ∧
        P9.validateFolderDepth allItems kv.1 0 [] = .error e := by
  intro l
  induction l with
  | nil => intro e h; simp [P9.rootsWalk] at h
  | cons hd tl ih =>
    intro e h
    obtain ⟨a, b⟩ := hd
    by_cases hcond : (!referenced.contains a && b.type == ItemTypeFolder) = true
    · rw [P9.rootsWalk, if_pos hcond] at h
      have hcond' : referenced.contains a = false ∧ b.type = ItemTypeFolder := by
        simp only [Bool.and_eq_true, Bool.not_eq_true', beq_iff_eq] at hcond
        exact hcond
      cases hw : P9.validateFolderDepth allItems a 0 [] with
      | error e' =>
        simp only [hw] at h
        cases h
        exact ⟨(a, b), List.mem_cons_self _ _, hcond'.1, hcond'.2, hw⟩
      | ok u =>
        cases u
        simp only [hw] at h
        obtain ⟨kv, hkv, h1, h2, h3⟩ := ih e h
        exact ⟨kv, List.mem_cons_of_mem _ hkv, h1, h2, h3⟩
    · rw [P9.rootsWalk, if_neg hcond] at h
      obtain ⟨kv, hkv, h1, h2, h3⟩ := ih e h
      exact ⟨kv, List.mem_cons_of_mem _ hkv, h1, h2, h3⟩

/-! ## C5 — under the reference invariants the walk only reports
max-depth errors -/

theorem getLastD_irrel (l : List String) (a b : String) (h : l ≠ []) :
    l.getLastD a = l.getLastD b := by
  induction l with
  | nil => exact absurd rfl h
  | cons x xs ih =>
    cases xs with
    | nil => rfl
    | cons y ys => rw [List.getLastD_cons a x, List.getLastD_cons b x]

theorem children_error_kind {allItems : List (String × Item)}
    (hsr : ∀ kv ∈ allItems, kv.1 ∉ kv.2.children)
    {parentID : String} {pit : Item}
    (hp : lookupId allItems parentID = some pit)
    {d : Nat} {vis' : List String}
    (hlen : vis'.length = d + 1)
    (hhead : ∃ t, vis' = parentID :: t)
    (hvf : ∀ z ∈ vis', ∃ zit, lookupId allItems z = some zit ∧
      zit.type = ItemTypeFolder)
    (hroot : ¬ Referenced allItems (vis'.getLastD ""))
    (walkIH : ∀ c, (∃ cit, lookupId allItems c = some cit) → c ∉ vis' →
      ∀ e, P9.validateFolderDepth allItems c (d + 1) vis' = .error e →
        ∃ j, e = .maxDepth j ∨ e = .maxDepthNested j) :
    ∀ {cs : List String}, (∀ c ∈ cs, c ∈ pit.children) →
      ∀ e, P9.validateChildrenDepth allItems parentID cs d vis' = .error e →
        ∃ j, e = .maxDepth j ∨ e = .maxDepthNested j := by
  have hmax : P9.MaxFolderDepth = 3 := rfl
  intro cs
  induction cs with
  | nil =>
    intro _ e h
    rw [children_nil_eq] at h
    simp at h
  | cons c rest ih =>
    intro hsub e h
    have hcmem : c ∈ pit.children := hsub c (List.mem_cons_self _ _)
    have hrest : ∀ c' ∈ rest, c' ∈ pit.children :=
      fun c' hc' => hsub c' (List.mem_cons_of_mem _ hc')
    have hRefc : Referenced allItems c :=
      ⟨(parentID, pit), mem_of_lookupId_some hp, hcmem⟩
    rw [children_cons_eq] at h
    cases hl : lookupId allItems c with
    | none =>
      simp only [hl] at h
      exact ih hrest e h
    | some cit =>
      simp only [hl] at h
      by_cases hf : cit.type = ItemTypeFolder
      · rw [if_pos hf] at h
        by_cases hd : P9.MaxFolderDepth ≤ d + 1
        · rw [if_pos hd] at h
          exact ⟨parentID, Or.inr (Except.error.inj h).symm⟩
        · rw [if_neg hd] at h
          have hnotin : c ∉ vis' := by
            intro hcv
            obtain ⟨t, rfl⟩ := hhead
            have hlt : t.length = d := by simpa using hlen
            have hd2 : d + 1 ≤ 2 := by rw [hmax] at hd; omega
            rcases List.mem_cons.mp hcv with rfl | hcv
            · exact hsr (c, pit) (mem_of_lookupId_some hp) hcmem
            · cases t with
              | nil => simp at hcv
              | cons z zs =>
                cases zs with
                | nil =>
                  have : c = z := by simpa using hcv
                  subst this
                  exact hroot hRefc
                | cons z' zs' => simp at hlt; omega
          cases hw : P9.validateFolderDepth allItems c (d + 1) vis' with
          | error e' =>
            simp only [hw] at h
            cases h
            exact walkIH c ⟨cit, hl⟩ hnotin e hw
          | ok u =>
            cases u
            simp only [hw] at h
            exact ih hrest e h
      · have hnotin : c ∉ vis' := by
          intro hcv
          obtain ⟨zit, hz, hzf⟩ := hvf c hcv
          rw [hl] at hz
          cases hz
          exact hf hzf
        rw [if_neg hf] at h
        cases hw : P9.validateFolderDepth allItems c d vis' with
        | error e' =>
          exfalso
          rw [walk_eq] at hw
          rw [if_neg (by simpa using hnotin)] at hw
          simp only [hl] at hw
          rw [if_neg hf] at hw
          simp at hw
        | ok u =>
          cases u
          simp only [hw] at h
          exact ih hrest e h

theorem walk_error_kind {allItems : List (String × Item)}
    (hsr : ∀ kv ∈ allItems, kv.1 ∉ kv.2.children) :
    ∀ (N : Nat), ∀ (id : String) (d : Nat) (vis : List String),
      P9.unvis allItems vis ≤ N →
      (∃ it, lookupId allItems id = some it) →
      id ∉ vis →
      vis.length = d →
      (∀ z ∈ vis, ∃ zit, lookupId allItems z = some zit ∧
        zit.type = ItemTypeFolder) →
      ¬ Referenced allItems ((id :: vis).getLastD "") →
      ∀ e, P9.validateFolderDepth allItems id d vis = .error e →
        ∃ j, e = .maxDepth j ∨ e = .maxDepthNested j := by
  intro N
  induction N using Nat.strong_induction_on with
  | _ N ihN =>
    intro id d vis hN hex hidv hlen hvf hroot e h
    obtain ⟨it, hli⟩ := hex
    rw [walk_eq] at h
    rw [if_neg (by simpa using hidv)] at h
    simp only [hli] at h
    by_cases hf : it.type = ItemTypeFolder
    · rw [if_pos hf] at h
      by_cases hd : P9.MaxFolderDepth ≤ d
      · rw [if_pos hd] at h
        exact ⟨id, Or.inl (Except.error.inj h).symm⟩
      · rw [if_neg hd] at h
        have hlt : P9.unvis allItems (id :: vis) < P9.unvis allItems vis :=
          P9.unvis_cons_lt (P9.mem_keys_of_lookupId hli)
            (by simpa using hidv)
        have hvf' : ∀ z ∈ id :: vis, ∃ zit,
            lookupId allItems z = some zit ∧ zit.type = ItemTypeFolder := by
          intro z hz
          rcases List.mem_cons.mp hz with rfl | hz
          · exact ⟨it, hli, hf⟩
          · exact hvf z hz
        have walkIH : ∀ c, (∃ cit, lookupId allItems c = some cit) →
            c ∉ (id :: vis) →
            ∀ e', P9.validateFolderDepth allItems c (d + 1) (id :: vis) =
              .error e' →
            ∃ j, e' = .maxDepth j ∨ e' = .maxDepthNested j := by
          intro c hcex hcin e' hcw
          have hroot' : ¬ Referenced allItems ((c :: id :: vis).getLastD "") := by
            rw [List.getLastD_cons "" c, getLastD_irrel _ c "" (by simp)]
            exact hroot
          exact ihN (P9.unvis allItems (id :: vis)) (by omega) c (d + 1)
            (id :: vis) (le_refl _) hcex hcin (by simp [hlen]) hvf' hroot' e' hcw
        exact children_error_kind hsr hli (by simp [hlen]) ⟨vis, rfl⟩ hvf'
          hroot walkIH (fun c hc => hc) e h
    · rw [if_neg hf] at h
      simp at h

/-! ## C5 — routing error kinds through the validation pipeline -/

theorem structValidate_error_kind {cfg : RequestsConfig} {e : VErr}
    (h : structValidate cfg = .error e) : e = .structErr := by
  unfold structValidate at h
  cases hv : cfg.values with
  | none => simp only [hv] at h; exact (Except.error.inj h).symm
  | some vs =>
    simp only [hv] at h
    by_cases hc : (decide (1 ≤ cfg.version) &&
        vs.all fun kv => kv.1 != "" && structOkItem kv.2) = true
    · rw [if_pos hc] at h; simp at h
    · rw [if_neg hc] at h; exact (Except.error.inj h).symm

theorem itemsPass_error_kind {rules : Item → Except RuleErr Unit} :
    ∀ {l : List (String × Item)} {e : VErr}, itemsPass rules l = .error e →
      ∃ id re, e = .item id re := by
  intro l
  induction l with
  | nil => intro e h; simp [itemsPass] at h
  | cons hd tl ih =>
    intro e h
    obtain ⟨a, b⟩ := hd
    cases hr : rules b with
    | error re =>
      simp only [itemsPass, hr] at h
      exact ⟨a, re, (Except.error.inj h).symm⟩
    | ok u =>
      cases u
      simp only [itemsPass, hr] at h
      exact ih h

theorem checkSelfRefs_error_kind :
    ∀ {l : List (String × Item)} {e : VErr}, checkSelfRefs l = .error e →
      ∃ id, e = .selfRef id := by
  intro l
  induction l with
  | nil => intro e h; simp [checkSelfRefs] at h
  | cons hd tl ih =>
    intro e h
    obtain ⟨a, b⟩ := hd
    by_cases hc : a ∈ b.children
    · simp only [checkSelfRefs] at h
      rw [if_pos (by simpa using hc)] at h
      exact ⟨a, (Except.error.inj h).symm⟩
    · simp only [checkSelfRefs] at h
      rw [if_neg (by simpa using hc)] at h
      exact ih h

theorem checkRoots_error_kind {referenced : List String} :
    ∀ {l : List (String × Item)} {e : VErr},
      P9.checkRoots referenced l = .error e → ∃ id, e = .rootNotFolder id := by
  intro l
  induction l with
  | nil => intro e h; simp [P9.checkRoots] at h
  | cons hd tl ih =>
    intro e h
    obtain ⟨a, b⟩ := hd
    by_cases hc : (!referenced.contains a && b.type != ItemTypeFolder) = true
    · simp only [P9.checkRoots] at h
      rw [if_pos hc] at h
      exact ⟨a, (Except.error.inj h).symm⟩
    · simp only [P9.checkRoots] at h
      rw [if_neg hc] at h
      exact ih h

theorem checkRefsExist_error_kind {allItems : List (String × Item)} :
    ∀ {refs : List String} {e : VErr}, checkRefsExist allItems refs = .error e →
      ∃ id, e = .missingRef id := by
  intro refs
  induction refs with
  | nil => intro e h; simp [checkRefsExist] at h
  | cons hd tl ih =>
    intro e h
    cases hl : lookupId allItems hd with
    | none =>
      simp only [checkRefsExist, hl] at h
      exact ⟨hd, (Except.error.inj h).symm⟩
    | some it =>
      simp only [checkRefsExist, hl] at h
      exact ih h

theorem refsRoot_error_kind {l : List (String × Item)} {e : VErr}
    (h : P9.validateReferencesAndRootLevel l = .error e) :
    ∃ id, e = .selfRef id ∨ e = .rootNotFolder id ∨ e = .missingRef id := by
  unfold P9.validateReferencesAndRootLevel at h
  cases h1 : checkSelfRefs l with
  | error e1 =>
    rw [h1] at h
    obtain ⟨id, hid⟩ := checkSelfRefs_error_kind (h1.trans h)
    exact ⟨id, Or.inl hid⟩
  | ok u =>
    cases u
    rw [h1] at h
    cases h2 : P9.checkRoots (allReferenced l) l with
    | error e2 =>
      rw [h2] at h
      obtain ⟨id, hid⟩ := checkRoots_error_kind (h2.trans h)
      exact ⟨id, Or.inr (Or.inl hid)⟩
    | ok u =>
      cases u
      rw [h2] at h
      obtain ⟨id, hid⟩ := checkRefsExist_error_kind h
      exact ⟨id, Or.inr (Or.inr hid)⟩

theorem refsRoot_ok_selfRefs {l : List (String × Item)}
    (h : P9.validateReferencesAndRootLevel l = .ok ()) :
    checkSelfRefs l = .ok () := by
  unfold P9.validateReferencesAndRootLevel at h
  cases h1 : checkSelfRefs l with
  | error e1 => rw [h1] at h; simp at h
  | ok u => cases u; rfl

theorem p9_validate_error_inv {cfg : RequestsConfig} {e : VErr}
    (h : P9.Validate cfg = .error e) :
    structValidate cfg = .error e ∨
    itemsPass P9.validateItemTypeSpecificRules cfg.entries = .error e ∨
    P9.validateReferencesAndRootLevel cfg.entries = .error e ∨
    (P9.validateReferencesAndRootLevel cfg.entries = .ok () ∧
      P9.validateMaxNestingDepth cfg.entries = .error e) := by
  unfold P9.Validate at h
  cases h1 : structValidate cfg with
  | error e1 =>
    rw [h1] at h
    exact Or.inl h
  | ok u =>
    cases u
    rw [h1] at h
    cases h2 : itemsPass P9.validateItemTypeSpecificRules cfg.entries with
    | error e2 =>
      rw [h2] at h
      exact Or.inr (Or.inl h)
    | ok u =>
      cases u
      rw [h2] at h
      cases h3 : P9.validateReferencesAndRootLevel cfg.entries with
      | error e3 =>
        rw [h3] at h
        exact Or.inr (Or.inr (Or.inl h))
      | ok u =>
        cases u
        rw [h3] at h
        exact Or.inr (Or.inr (Or.inr ⟨rfl, h⟩))

theorem maxNesting_error_kind {allItems : List (String × Item)}
    (hsr : ∀ kv ∈ allItems, kv.1 ∉ kv.2.children) {e : VErr}
    (h : P9.validateMaxNestingDepth allItems = .error e) :
    ∃ j, e = .maxDepth j ∨ e = .maxDepthNested j := by
  unfold P9.validateMaxNestingDepth at h
  obtain ⟨kv, hkv, hcont, hty, hw⟩ := rootsWalk_error_spec e h
  have hex : ∃ it, lookupId allItems kv.1 = some it :=
    lookupId_some_of_mem_keys (List.mem_map.mpr ⟨kv, hkv, rfl⟩)
  have hroot : ¬ Referenced allItems (([kv.1] : List String).getLastD "") := by
    show ¬ Referenced allItems kv.1
    intro hr
    have hc := (referenced_iff_contains _ _).mp hr
    rw [hcont] at hc
    cases hc
  exact walk_error_kind hsr (P9.unvis allItems []) kv.1 0 [] (le_refl _) hex
    (by simp) rfl (fun z hz => absurd hz (List.not_mem_nil z)) hroot e hw

theorem maxNesting_error_chain {allItems : List (String × Item)} {j : String}
    {e : VErr} (h : P9.validateMaxNestingDepth allItems = .error e)
    (hkind : e = .maxDepth j ∨ e = .maxDepthNested j) :
    ∃ r, ¬ Referenced allItems r ∧ FolderChain allItems r 3 := by
  unfold P9.validateMaxNestingDepth at h
  obtain ⟨kv, hkv, hcont, hty, hw⟩ := rootsWalk_error_spec e h
  have hw' : P9.validateFolderDepth allItems kv.1 0 [] = .error (.maxDepth j) ∨
      P9.validateFolderDepth allItems kv.1 0 [] = .error (.maxDepthNested j) := by
    rcases hkind with rfl | rfl
    · exact Or.inl hw
    · exact Or.inr hw
  obtain ⟨m, hchain, hm⟩ := walk_error_chain (P9.unvis allItems []) kv.1 0 []
    (le_refl _) j hw'
  refine ⟨kv.1, ?_, folderChain_trunc hchain 3 (by omega)⟩
  intro hr
  have := (referenced_iff_contains _ _).mp hr
  rw [hcont] at this
  cases this

/-! ## C5 — the claim's theorems -/

/-- C5 counterexample: this configuration has a folder chain of four
folders from the root "f0" — the claim's premise — yet Validate reports
the struct-tag violation (the empty name of "f3"), not a max-depth
error. -/
theorem deep_chain_error_need_not_be_max_depth :
    ¬ Referenced deepChainBadNameConfig.entries "f0" ∧
    FolderChain deepChainBadNameConfig.entries "f0" 3 ∧
    P9.Validate deepChainBadNameConfig = .error .structErr ∧
    (∀ id, VErr.structErr ≠ .maxDepth id ∧ VErr.structErr ≠ .maxDepthNested id) := by
  refine ⟨?_, ?_, rfl, ?_⟩
  · unfold Referenced
    decide
  · exact .succ "f0" "f1" 2 _ rfl rfl (by decide)
      (.succ "f1" "f2" 1 _ rfl rfl (by decide)
        (.succ "f2" "f3" 0 _ rfl rfl (by decide)
          (.zero "f3" _ rfl rfl)))
  · intro id
    constructor
    · intro h
      cases h
    · intro h
      cases h

/-- C5 amended: a folder chain from a root exceeding three folder levels
(four chained folders, the first unreferenced) always makes Validate
fail, and when the configuration also passes the shape, type-rule and
reference/root passes, the failure is specifically a max-depth error;
conversely, a configuration with no such chain — in particular one whose
deepest folder chain is exactly three levels — never receives a
max-depth error from Validate. -/
theorem validate_bounds_folder_depth (cfg : RequestsConfig) :
    ((∃ r, ¬ Referenced cfg.entries r ∧ FolderChain cfg.entries r 3) →
      P9.Validate cfg ≠ .ok () ∧
      (structValidate cfg = .ok () →
        itemsPass P9.validateItemTypeSpecificRules cfg.entries = .ok () →
        P9.validateReferencesAndRootLevel cfg.entries = .ok () →
        ∃ id, P9.Validate cfg = .error (.maxDepth id) ∨
          P9.Validate cfg = .error (.maxDepthNested id))) ∧
    ((¬ ∃ r, ¬ Referenced cfg.entries r ∧ FolderChain cfg.entries r 3) →
      ∀ id, P9.Validate cfg ≠ .error (.maxDepth id) ∧
        P9.Validate cfg ≠ .error (.maxDepthNested id)) := by
  constructor
  · rintro ⟨r, hnr, hchain⟩
    have hne : P9.Validate cfg ≠ .ok () := by
      intro hok
      obtain ⟨h1, h2, h3, h4⟩ := p9_validate_ok_passes hok
      obtain ⟨it0, hl0, hf0⟩ := folderChain_head hchain
      have hkv : (r, it0) ∈ cfg.entries := mem_of_lookupId_some hl0
      have hcont : (allReferenced cfg.entries).contains r = false := by
        rcases hx : (allReferenced cfg.entries).contains r with _ | _
        · rfl
        · exact absurd ((referenced_iff_contains _ _).mpr hx) hnr
      have h4' : P9.rootsWalk cfg.entries (allReferenced cfg.entries)
          cfg.entries = .ok () := h4
      have hwok := rootsWalk_ok_spec h4' (r, it0) hkv hcont hf0
      exact walk_ne_ok_of_chain hchain 0 [] (by omega) hwok
    refine ⟨hne, fun h1 h2 h3 => ?_⟩
    have hval : P9.Validate cfg = P9.validateMaxNestingDepth cfg.entries := by
      unfold P9.Validate
      rw [h1, h2, h3]
    cases hres : P9.validateMaxNestingDepth cfg.entries with
    | ok u =>
      cases u
      exact absurd (hval.trans hres) hne
    | error e =>
      have hsr : ∀ kv ∈ cfg.entries, kv.1 ∉ kv.2.children :=
        checkSelfRefs_ok (refsRoot_ok_selfRefs h3)
      obtain ⟨j, hj⟩ := maxNesting_error_kind hsr hres
      refine ⟨j, ?_⟩
      rcases hj with rfl | rfl
      · exact Or.inl (hval.trans hres)
      · exact Or.inr (hval.trans hres)
  · intro hno id
    have key : ∀ e, P9.Validate cfg = .error e →
        (e = .maxDepth id ∨ e = .maxDepthNested id) → False := by
      intro e hval hkind
      rcases p9_validate_error_inv hval with h | h | h | ⟨hok3, hdep⟩
      · have hk := structValidate_error_kind h
        rcases hkind with rfl | rfl <;> cases hk
      · obtain ⟨id', re, hre⟩ := itemsPass_error_kind h
        rcases hkind with rfl | rfl <;> cases hre
      · obtain ⟨id', hid⟩ := refsRoot_error_kind h
        rcases hkind with rfl | rfl <;> rcases hid with h' | h' | h' <;> cases h'
      · obtain ⟨r, hnr, hchain⟩ := maxNesting_error_chain hdep hkind
        exact hno ⟨r, hnr, hchain⟩
    exact ⟨fun hmd => key _ hmd (Or.inl rfl), fun hmd => key _ hmd (Or.inr rfl)⟩

/-- C5 amended, witness: the clean four-folder chain passes the earlier
passes and receives a max-depth error. -/
theorem validate_bounds_folder_depth_witness :
    ∃ id, P9.Validate deepChainConfig = .error (.maxDepth id) ∨
      P9.Validate deepChainConfig = .error (.maxDepthNested id) :=
  ((validate_bounds_folder_depth deepChainConfig).1
    ⟨"f0", by unfold Referenced; decide,
      .succ "f0" "f1" 2 _ rfl rfl (by decide)
        (.succ "f1" "f2" 1 _ rfl rfl (by decide)
          (.succ "f2" "f3" 0 _ rfl rfl (by decide)
            (.zero "f3" _ rfl rfl)))⟩).2 rfl rfl rfl

/-! ## C6 — type-specific field rules (both validator generations) -/

/-- C6 counterexample: the part_009 generation of
validateItemTypeSpecificRules has no request-path check (and the `Path`
struct tag is `omitempty,min=1`, which never fails), so its Validate
accepts a configuration whose request "r1" has an empty path. -/
theorem p9_validate_accepts_request_without_path :
    lookupId noPathConfig.entries "r1" = some (mkRequest "L" "GET" "") ∧
    (mkRequest "L" "GET" "").type = ItemTypeRequest ∧
    (mkRequest "L" "GET" "").path = "" ∧
    P9.Validate noPathConfig = .ok () := by
  refine ⟨rfl, rfl, rfl, ?_⟩
  simp [P9.Validate, noPathConfig, structValidate, structOkItem, itemsPass,
    P9.validateItemTypeSpecificRules, P9.validateReferencesAndRootLevel,
    checkSelfRefs, P9.checkRoots, checkRefsExist, allReferenced,
    P9.validateMaxNestingDepth, P9.rootsWalk, RequestsConfig.entries, mkFolder,
    mkRequest, lookupId, walk_eq, children_nil_eq, children_cons_eq,
    validateHTTPMethod, P9.MaxFolderDepth, ItemTypeFolder, ItemTypeRequest]
  have hg : "GET".toUpper = "GET" := by rw [String.toUpper, String.map_eq]; decide
  simp [hg, validMethods]

/-- C6 amended: both validator generations fail on a request with an empty
method and on a folder with a non-empty method or path; the empty-path
rule for requests is enforced only by the requests.go generation — the
part_009 generation has no request-path check. -/
theorem validate_type_rules_by_variant
    (cfg : RequestsConfig) (id : String) (it : Item)
    (hmem : (id, it) ∈ cfg.entries) :
    (it.type = ItemTypeRequest → it.method = "" →
      V1.Validate cfg ≠ .ok () ∧ P9.Validate cfg ≠ .ok ()) ∧
    (it.type = ItemTypeRequest → it.path = "" → V1.Validate cfg ≠ .ok ()) ∧
    (it.type = ItemTypeFolder → (it.method ≠ "" ∨ it.path ≠ "") →
      V1.Validate cfg ≠ .ok () ∧ P9.Validate cfg ≠ .ok ()) := by
  have hfr : ItemTypeFolder ≠ ItemTypeRequest := by decide
  refine ⟨?_, ?_, ?_⟩
  · intro hreq hm
    constructor
    · intro hok
      have hr := itemsPass_ok (v1_validate_ok_rules hok) _ hmem
      simp [V1.validateItemTypeSpecificRules, hreq, hm] at hr
    · intro hok
      have hr := itemsPass_ok (p9_validate_ok_passes hok).2.1 _ hmem
      simp [P9.validateItemTypeSpecificRules, hreq, hm] at hr
  · intro hreq hp hok
    have hr := itemsPass_ok (v1_validate_ok_rules hok) _ hmem
    by_cases hm : it.method = ""
    · simp [V1.validateItemTypeSpecificRules, hreq, hm] at hr
    · simp [V1.validateItemTypeSpecificRules, hreq, hm, hp] at hr
  · intro hfold hmp
    constructor
    · intro hok
      have hr := itemsPass_ok (v1_validate_ok_rules hok) _ hmem
      rcases hmp with hm | hp
      · simp [V1.validateItemTypeSpecificRules, hfold, hfr, hm] at hr
      · by_cases hm : it.method = ""
        · simp [V1.validateItemTypeSpecificRules, hfold, hfr, hm, hp] at hr
        · simp [V1.validateItemTypeSpecificRules, hfold, hfr, hm] at hr
    · intro hok
      have hr := itemsPass_ok (p9_validate_ok_passes hok).2.1 _ hmem
      rcases hmp with hm | hp
      · simp [P9.validateItemTypeSpecificRules, hfold, hfr, hm] at hr
      · by_cases hm : it.method = ""
        · simp [P9.validateItemTypeSpecificRules, hfold, hfr, hm, hp] at hr
        · simp [P9.validateItemTypeSpecificRules, hfold, hfr, hm] at hr

/-- C6 amended, witness: a request without a method fails both validator
generations, and the same configuration's request-with-empty-path prong
holds for the requests.go generation. -/
theorem validate_type_rules_by_variant_witness :
    (V1.Validate noMethodConfig ≠ .ok () ∧ P9.Validate noMethodConfig ≠ .ok ()) ∧
    V1.Validate noPathConfig ≠ .ok () :=
  ⟨(validate_type_rules_by_variant noMethodConfig "r1"
      (mkRequest "L" "" "/u") (by decide)).1 rfl rfl,
    (validate_type_rules_by_variant noPathConfig "r1"
      (mkRequest "L" "GET" "") (by decide)).2.1 rfl rfl⟩

/-! ## C3 — the subtree collection reaches a closed fixed point -/

theorem lookupId_eq_none_iff {l : List (String × Item)} {k : String} :
    lookupId l k = none ↔ k ∉ l.map Prod.fst := by
  constructor
  · intro h hk
    obtain ⟨it, hit⟩ := lookupId_some_of_mem_keys hk
    rw [h] at hit
    cases hit
  · intro hk
    cases hl : lookupId l k with
    | none => rfl
    | some it =>
      exact absurd (List.mem_map.mpr ⟨(k, it), mem_of_lookupId_some hl, rfl⟩) hk

theorem subset_expandOnce (values : List (String × Item)) (D : List String) :
    D ⊆ expandOnce values D :=
  fun _ hx => List.mem_append_left _ hx

theorem subset_expandN (values : List (String × Item)) :
    ∀ (n : Nat) (D : List String), D ⊆ expandN values n D := by
  intro n
  induction n with
  | zero => intro D x hx; exact hx
  | succ n ih =>
    intro D x hx
    exact ih (expandOnce values D) (subset_expandOnce values D hx)

theorem expandOnce_nodup {values : List (String × Item)} {D : List String}
    (h : D.Nodup) : (expandOnce values D).Nodup := by
  unfold expandOnce
  refine h.append (List.nodup_dedup _) ?_
  intro x hx hx'
  rw [List.mem_dedup, List.mem_filter] at hx'
  have := hx'.2
  simp only [Bool.not_eq_true', decide_eq_true_eq] at this
  exact absurd hx (by simpa using this)

theorem expandOnce_subset_univ {values : List (String × Item)} {D U : List String}
    (hU : ∀ k it, lookupId values k = some it → it.children ⊆ U)
    (hD : D ⊆ U) : expandOnce values D ⊆ U := by
  intro x hx
  rcases List.mem_append.mp hx with hx | hx
  · exact hD hx
  · rw [List.mem_dedup, List.mem_filter] at hx
    obtain ⟨cs, hcs, hxc⟩ := List.mem_flatten.mp hx.1
    obtain ⟨k, hk, rfl⟩ := List.mem_map.mp hcs
    unfold folderChildrenOf at hxc
    cases hl : lookupId values k with
    | none => simp only [hl] at hxc; cases hxc
    | some it =>
      simp only [hl] at hxc
      by_cases hf : (it.type == ItemTypeFolder) = true
      · rw [if_pos hf] at hxc
        exact hU k it hl hxc
      · rw [if_neg hf] at hxc
        cases hxc

theorem expandOnce_grows {values : List (String × Item)} {D : List String}
    (h : expandOnce values D ≠ D) :
    D.length < (expandOnce values D).length := by
  unfold expandOnce at *
  cases hr : ((D.map (folderChildrenOf values)).flatten.filter
      fun c => !D.contains c).dedup with
  | nil => rw [hr] at h; simp at h
  | cons a rest =>
    simp only [List.length_append, List.length_cons]
    omega

theorem expandN_comm (values : List (String × Item)) :
    ∀ (n : Nat) (D : List String),
      expandN values n (expandOnce values D) =
        expandOnce values (expandN values n D) := by
  intro n
  induction n with
  | zero => intro D; rfl
  | succ n ih => intro D; exact ih (expandOnce values D)

theorem expandN_of_fix {values : List (String × Item)} {D : List String}
    (h : expandOnce values D = D) : ∀ n, expandN values n D = D := by
  intro n
  induction n with
  | zero => rfl
  | succ n ih =>
    show expandN values n (expandOnce values D) = D
    rw [h]
    exact ih

theorem expandN_progress {values : List (String × Item)} {U : List String}
    (hU : ∀ k it, lookupId values k = some it → it.children ⊆ U) :
    ∀ (n : Nat) (D : List String), D.Nodup → D ⊆ U →
      expandOnce values (expandN values n D) = expandN values n D ∨
      D.length + n ≤ (expandN values n D).length := by
  intro n
  induction n with
  | zero =>
    intro D _ _
    right
    show D.length + 0 ≤ D.length
    omega
  | succ n ih =>
    intro D hnd hDU
    by_cases hfix : expandOnce values D = D
    · left
      rw [expandN_of_fix hfix, hfix]
    · have hgrow := expandOnce_grows hfix
      have hnd' : (expandOnce values D).Nodup := expandOnce_nodup hnd
      have hDU' := expandOnce_subset_univ hU hDU
      rcases ih (expandOnce values D) hnd' hDU' with hf | hlen
      · left
        exact hf
      · right
        show D.length + (n + 1) ≤ (expandN values n (expandOnce values D)).length
        omega

theorem nodup_length_le {D U : List String} (hnd : D.Nodup) (hDU : D ⊆ U) :
    D.length ≤ U.length := by
  have h1 : D.toFinset.card = D.length := List.toFinset_card_of_nodup hnd
  have h2 : D.toFinset ⊆ U.toFinset := by
    intro x hx
    rw [List.mem_toFinset] at *
    exact hDU hx
  have h3 := Finset.card_le_card h2
  have h4 := List.toFinset_card_le U
  omega

theorem subtreeIds_fix (values : List (String × Item)) (id : String) :
    expandOnce values (subtreeIds values id) = subtreeIds values id := by
  set U : List String :=
    id :: (values.map fun kv => kv.2.children).flatten with hUdef
  have hU : ∀ k it, lookupId values k = some it → it.children ⊆ U := by
    intro k it hl c hc
    refine List.mem_cons_of_mem _ (List.mem_flatten.mpr ?_)
    exact ⟨it.children, List.mem_map.mpr ⟨(k, it), mem_of_lookupId_some hl, rfl⟩,
      hc⟩
  have hstart : ([id] : List String) ⊆ U := by
    intro x hx
    rw [List.mem_singleton.mp hx]
    exact List.mem_cons_self _ _
  have hnd : ([id] : List String).Nodup := List.nodup_singleton id
  unfold subtreeIds
  set n := (values.map fun kv => kv.2.children).flatten.length + 1 with hndef
  rcases expandN_progress hU n [id] hnd hstart with h | h
  · exact h
  · exfalso
    have hsub : expandN values n [id] ⊆ U := by
      have : ∀ m (D : List String), D.Nodup → D ⊆ U →
          expandN values m D ⊆ U ∧ (expandN values m D).Nodup := by
        intro m
        induction m with
        | zero => intro D h1 h2; exact ⟨h2, h1⟩
        | succ m ihm =>
          intro D h1 h2
          exact ihm (expandOnce values D) (expandOnce_nodup h1)
            (expandOnce_subset_univ hU h2)
      exact (this n [id] hnd hstart).1
    have hsubnd : (expandN values n [id]).Nodup := by
      have : ∀ m (D : List String), D.Nodup → D ⊆ U →
          (expandN values m D).Nodup := by
        intro m
        induction m with
        | zero => intro D h1 _; exact h1
        | succ m ihm =>
          intro D h1 h2
          exact ihm (expandOnce values D) (expandOnce_nodup h1)
            (expandOnce_subset_univ hU h2)
      exact this n [id] hnd hstart
    have hle := nodup_length_le hsubnd hsub
    have hUlen : U.length = n := by
      rw [hUdef, hndef]
      simp
    simp only [List.length_singleton] at h
    omega

theorem mem_subtreeIds_self (values : List (String × Item)) (id : String) :
    id ∈ subtreeIds values id :=
  subset_expandN values _ [id] (List.mem_singleton.mpr rfl)

theorem subtreeIds_closed {values : List (String × Item)} {id k c : String}
    {it : Item} (hk : k ∈ subtreeIds values id)
    (hl : lookupId values k = some it) (hf : it.type = ItemTypeFolder)
    (hc : c ∈ it.children) : c ∈ subtreeIds values id := by
  have hcf : c ∈ folderChildrenOf values k := by
    unfold folderChildrenOf
    simp only [hl]
    rw [if_pos (by simp [hf])]
    exact hc
  by_cases hmem : c ∈ subtreeIds values id
  · exact hmem
  · have : c ∈ expandOnce values (subtreeIds values id) := by
      refine List.mem_append_right _ ?_
      rw [List.mem_dedup, List.mem_filter]
      refine ⟨List.mem_flatten.mpr ⟨folderChildrenOf values k, ?_, hcf⟩, ?_⟩
      · exact List.mem_map.mpr ⟨k, hk, rfl⟩
      · simpa using hmem
    rw [subtreeIds_fix] at this
    exact this

theorem desc_mem_subtreeIds {values : List (String × Item)} {id d : String}
    (h : Desc values id d) : d ∈ subtreeIds values id := by
  induction h with
  | base => exact mem_subtreeIds_self values id
  | step a b ita ha hl hf hb ih => exact subtreeIds_closed ih hl hf hb

/-! ## C3 — DeleteItem (spec-modelled) -/

theorem scrub_map_fst (kept : List (String × Item)) (ks : List String) :
    (kept.map fun kv => (kv.1,
      { kv.2 with children := kv.2.children.filter fun c => ks.contains c })).map
      Prod.fst = kept.map Prod.fst := by
  rw [List.map_map]
  rfl

theorem mem_scrub {kept : List (String × Item)} {ks : List String}
    {kv : String × Item}
    (h : kv ∈ kept.map fun kv => (kv.1,
      { kv.2 with children := kv.2.children.filter fun c => ks.contains c })) :
    ∀ c ∈ kv.2.children, c ∈ ks := by
  obtain ⟨kv0, hkv0, rfl⟩ := List.mem_map.mp h
  intro c hc
  simp only [List.mem_filter] at hc
  simpa using hc.2

theorem mem_filter_keys_not {values : List (String × Item)} {D : List String}
    {d : String} (hd : d ∈ D) :
    d ∉ (values.filter fun kv => !D.contains kv.1).map Prod.fst := by
  intro hmem
  obtain ⟨kv, hkv, rfl⟩ := List.mem_map.mp hmem
  have h2 := (List.mem_filter.mp hkv).2
  simp only [Bool.not_eq_true'] at h2
  exact absurd hd (by simpa using h2)

/-- C3 (spec-modelled): DeleteItem fails with NotFound exactly when the id
is absent; and whenever it commits a configuration, that configuration
contains no member of the deleted folder subtree (the id itself or any
transitive folder descendant), no children list or root-order entry
mentions one, and no dangling child reference remains at all. -/
theorem deleteItem_spec (cfg : SpecConfig) (id : String) :
    (lookupId cfg.values id = none → DeleteItem cfg id = .error .notFound) ∧
    (∀ cfg', DeleteItem cfg id = .ok cfg' →
      (∀ d, Desc cfg.values id d →
        lookupId cfg'.values d = none ∧
        (∀ kv ∈ cfg'.values, d ∉ kv.2.children) ∧
        d ∉ cfg'.rootOrder) ∧
      (∀ kv ∈ cfg'.values, ∀ c ∈ kv.2.children,
        c ∈ cfg'.values.map Prod.fst)) := by
  constructor
  · intro h
    unfold DeleteItem
    rw [h]
  · intro cfg' hdel
    unfold DeleteItem at hdel
    cases hl : lookupId cfg.values id with
    | none =>
      simp only [hl] at hdel
      exact absurd hdel (by simp)
    | some it0 =>
      simp only [hl] at hdel
      split at hdel
      · exact absurd hdel (by simp)
      · have hc := Except.ok.inj hdel
        subst hc
        constructor
        · intro d hdesc
          have hdD : d ∈ subtreeIds cfg.values id := desc_mem_subtreeIds hdesc
          have hdK : d ∉ (cfg.values.filter fun kv =>
              !(subtreeIds cfg.values id).contains kv.1).map Prod.fst :=
            mem_filter_keys_not hdD
          refine ⟨?_, ?_, ?_⟩
          · rw [lookupId_eq_none_iff]
            show d ∉ (List.map _ (cfg.values.filter fun kv =>
              !(subtreeIds cfg.values id).contains kv.1)).map Prod.fst
            rw [scrub_map_fst]
            exact hdK
          · intro kv hkv hdc
            exact hdK (mem_scrub hkv d hdc)
          · intro hro
            have := (List.mem_filter.mp hro).2
            exact hdK (by simpa using this)
        · intro kv hkv c hc
          show c ∈ (List.map _ (cfg.values.filter fun kv =>
            !(subtreeIds cfg.values id).contains kv.1)).map Prod.fst
          rw [scrub_map_fst]
          exact mem_scrub hkv c hc

/-- C3 witness: deleting the request "R" from the concrete configuration
succeeds and the committed result contains no trace of it. -/
theorem deleteItem_spec_witness :
    lookupId specDeletedConfig.values "R" = none ∧
    "R" ∉ specDeletedConfig.rootOrder := by
  have hdel : DeleteItem specDeleteConfig "R" = .ok specDeletedConfig := by
    simp [DeleteItem, specDeleteConfig, specDeletedConfig, subtreeIds, expandN,
      expandOnce, folderChildrenOf, lookupId, mkFolder, mkRequest, P9.Validate,
      structValidate, structOkItem, itemsPass, P9.validateItemTypeSpecificRules,
      P9.validateReferencesAndRootLevel, checkSelfRefs, P9.checkRoots,
      checkRefsExist, allReferenced, P9.validateMaxNestingDepth, P9.rootsWalk,
      RequestsConfig.entries, validateHTTPMethod, P9.MaxFolderDepth,
      ItemTypeFolder, ItemTypeRequest, walk_eq, children_nil_eq]
  have h := ((deleteItem_spec specDeleteConfig "R").2 specDeletedConfig hdel).1
    "R" Desc.base
  exact ⟨h.1, h.2.2⟩
